import Mathlib

/-!
Verification of the frameflow layout library: the node arena with
generational handles and the per-type layout algorithms, shallowly embedded
from the C++ sources (`layout.hpp` / `layout.cpp`).

Modelling conventions:
* C++ `float` scalars are modelled as exact rationals (`ℚ`); every scenario
  checked concretely uses values on which float arithmetic is exact.
* `uint32_t` slot indices and generation counters are modelled as `Nat`;
  the arena is assumed to stay far below `2^32` slots and `2^32` generations
  per slot (a physical certainty for this library), so integer wraparound is
  not modelled.  The null sentinel keeps its literal value `4294967295`.
* `std::vector` fields are modelled as `List` with `push_back = append`,
  `back = getLast`, `pop_back = dropLast`.
* Recursive C++ functions (`is_descendant`, `delete_node`, `compute_layout`)
  receive an explicit fuel argument; exhausting the fuel (which only happens
  when a malformed arena makes the C++ recursion diverge) returns the state
  unchanged.
* The C++ layout pass dereferences `get_node` results without a null check;
  an invalid child id there is undefined behaviour in C++ and is modelled
  as skipping that child.  The parent node passed by reference to the layout
  helpers is modelled as a by-value snapshot; the two agree whenever the
  parent is not among its own descendants.
-/

namespace Frameflow

/-- 2-D vector (C++ `float2`), with `float` modelled as `ℚ`. -/
structure float2 where
  x : ℚ := 0
  y : ℚ := 0
deriving DecidableEq, Repr

instance : Add float2 := ⟨fun a b => ⟨a.x + b.x, a.y + b.y⟩⟩

/-- Axis-aligned rectangle (origin + size). -/
structure Rect where
  origin : float2 := {}
  size : float2 := {}
deriving DecidableEq, Repr

/-- Generational handle into the node arena. -/
structure NodeId where
  index : Nat := 4294967295
  generation : Nat := 0
deriving DecidableEq, Repr

/-- The null sentinel handle (`{UINT32_MAX, 0}`). -/
def NullNode : NodeId := ⟨4294967295, 0⟩

/-- C++ `NodeId::is_null`. -/
def NodeId.is_null (id : NodeId) : Bool := id.index == 4294967295

inductive NodeType where
  | Generic
  | Center
  | Box
  | Flow
  | Margin
deriving DecidableEq, Repr

inductive Direction where
  | Horizontal
  | Vertical
deriving DecidableEq, Repr

inductive Align where
  | Start
  | Center
  | End
  | SpaceBetween
deriving DecidableEq, Repr

structure BoxData where
  direction : Direction := Direction.Horizontal
  align : Align := Align.Start
deriving DecidableEq, Repr

instance : Inhabited BoxData := ⟨{}⟩

structure FlowData where
  direction : Direction := Direction.Horizontal
  align : Align := Align.Start
deriving DecidableEq, Repr

instance : Inhabited FlowData := ⟨{}⟩

structure MarginData where
  left : ℚ := 0
  right : ℚ := 0
  top : ℚ := 0
  bottom : ℚ := 0
deriving DecidableEq, Repr

instance : Inhabited MarginData := ⟨{}⟩

/-- Per-type component pools with freed-slot reuse stacks. -/
structure Components where
  boxes : List BoxData := []
  flows : List FlowData := []
  margins : List MarginData := []
  free_boxes : List Nat := []
  free_flows : List Nat := []
  free_margins : List Nat := []
deriving DecidableEq, Repr

/-- Anchors normalized [0..1] relative to parent. -/
structure Anchors where
  left : ℚ := 0
  top : ℚ := 0
  right : ℚ := 0
  bottom : ℚ := 0
deriving DecidableEq, Repr

/-- Pixel offsets from anchors. -/
structure Offsets where
  left : ℚ := 0
  top : ℚ := 0
  right : ℚ := 0
  bottom : ℚ := 0
deriving DecidableEq, Repr

/-- One arena slot.  `type` has no C++ default initializer (it is always
assigned by the typed creators before use); the model defaults it to
`Generic`. -/
structure Node where
  bounds : Rect := {}
  minimum_size : float2 := {}
  expand : float2 := ⟨0, 0⟩
  stretch : float2 := ⟨1, 1⟩
  anchors : Anchors := {}
  offsets : Offsets := {}
  parent : NodeId := NullNode
  children : List NodeId := []
  type : NodeType := NodeType.Generic
  component_index : Nat := 0
  generation : Nat := 0
  alive : Bool := true
deriving DecidableEq, Repr

/-- The default-constructed node (C++ `Node` member initializers; `type`
has no C++ initializer and is defaulted to `Generic` here). -/
def defaultNode : Node := {}

instance : Inhabited Node := ⟨defaultNode⟩

/-- The arena: node storage, component pools, root list, free list. -/
structure System where
  nodes : List Node := []
  components : Components := {}
  children : List NodeId := []
  free_list : List Nat := []
deriving DecidableEq, Repr

/-- The node record currently stored at slot `i` (default for an
out-of-range index, which in C++ would be undefined behaviour). -/
def nodeAt (s : System) (i : Nat) : Node := s.nodes.getD i default

/-- Overwrite slot `i` (no-op when out of range). -/
def setNode (s : System) (i : Nat) (n : Node) : System :=
  { s with nodes := s.nodes.set i n }

/-- C++ `is_valid`. -/
def is_valid (s : System) (id : NodeId) : Bool :=
  if id.is_null then false
  else if decide (s.nodes.length ≤ id.index) then false
  else (nodeAt s id.index).alive && (nodeAt s id.index).generation == id.generation

/-- C++ `get_node`: a usable copy of the node if the handle is valid,
otherwise "not found". -/
def get_node (s : System) (id : NodeId) : Option Node :=
  if is_valid s id then some (nodeAt s id.index) else none

/-- C++ `allocate_node`: pop a freed slot (resetting its transient fields,
keeping its generation) or append a fresh slot with generation 0. -/
def allocate_node (s : System) : System × NodeId :=
  match s.free_list.getLast? with
  | some index =>
    let s1 : System := { s with free_list := s.free_list.dropLast }
    let generation := (nodeAt s1 index).generation
    let node := nodeAt s1 index
    let node := { node with bounds := {}, minimum_size := {}, expand := ⟨0, 0⟩,
                            stretch := ⟨1, 1⟩, anchors := {}, offsets := {},
                            children := [] }
    (setNode s1 index node, ⟨index, generation⟩)
  | none =>
    let index := s.nodes.length
    ({ s with nodes := s.nodes ++ [default] }, ⟨index, 0⟩)

/-- Shared tail of the typed creators: initialize the allocated slot and
link it into the parent's children list.  (Each C++ `add_*` repeats this
text verbatim; it is factored here with the per-type fields as inputs.) -/
def register_node (s : System) (id : NodeId) (parent : NodeId)
    (ty : NodeType) (comp_idx : Nat) : System :=
  let node := nodeAt s id.index
  let node := { node with type := ty, bounds := {}, minimum_size := {},
                          parent := parent, component_index := comp_idx,
                          generation := id.generation, alive := true,
                          children := [] }
  let s1 := setNode s id.index node
  if !parent.is_null then
    let p := nodeAt s1 parent.index
    setNode s1 parent.index { p with children := p.children ++ [id] }
  else s1

/-- C++ `add_generic`.  (`component_index` is left untouched by the C++
code; the model passes the slot's current value through.) -/
def add_generic (s : System) (parent : NodeId) : System × NodeId :=
  if !parent.is_null && !is_valid s parent then (s, NullNode)
  else
    let r := allocate_node s
    (register_node r.1 r.2 parent NodeType.Generic (nodeAt r.1 r.2.index).component_index, r.2)

/-- C++ `add_center`. -/
def add_center (s : System) (parent : NodeId) : System × NodeId :=
  if !parent.is_null && !is_valid s parent then (s, NullNode)
  else
    let r := allocate_node s
    (register_node r.1 r.2 parent NodeType.Center (nodeAt r.1 r.2.index).component_index, r.2)

/-- C++ `add_box`: validate the parent, then reuse or grow a Box component
slot, then allocate and register the node. -/
def add_box (s : System) (parent : NodeId) (data : BoxData) : System × NodeId :=
  if !parent.is_null && !is_valid s parent then (s, NullNode)
  else
    let rc :=
      match s.components.free_boxes.getLast? with
      | some idx =>
        ({ s with components := { s.components with
              free_boxes := s.components.free_boxes.dropLast,
              boxes := s.components.boxes.set idx data } }, idx)
      | none =>
        ({ s with components := { s.components with
              boxes := s.components.boxes ++ [data] } }, s.components.boxes.length)
    let r := allocate_node rc.1
    (register_node r.1 r.2 parent NodeType.Box rc.2, r.2)

/-- C++ `add_flow`. -/
def add_flow (s : System) (parent : NodeId) (data : FlowData) : System × NodeId :=
  if !parent.is_null && !is_valid s parent then (s, NullNode)
  else
    let rc :=
      match s.components.free_flows.getLast? with
      | some idx =>
        ({ s with components := { s.components with
              free_flows := s.components.free_flows.dropLast,
              flows := s.components.flows.set idx data } }, idx)
      | none =>
        ({ s with components := { s.components with
              flows := s.components.flows ++ [data] } }, s.components.flows.length)
    let r := allocate_node rc.1
    (register_node r.1 r.2 parent NodeType.Flow rc.2, r.2)

/-- C++ `add_margin`. -/
def add_margin (s : System) (parent : NodeId) (data : MarginData) : System × NodeId :=
  if !parent.is_null && !is_valid s parent then (s, NullNode)
  else
    let rc :=
      match s.components.free_margins.getLast? with
      | some idx =>
        ({ s with components := { s.components with
              free_margins := s.components.free_margins.dropLast,
              margins := s.components.margins.set idx data } }, idx)
      | none =>
        ({ s with components := { s.components with
              margins := s.components.margins ++ [data] } }, s.components.margins.length)
    let r := allocate_node rc.1
    (register_node r.1 r.2 parent NodeType.Margin rc.2, r.2)

/-- C++ `is_descendant` (depth-first search through `children`).  The fuel
bounds the recursion depth; the C++ version diverges exactly where every
fuel value is eventually exhausted (cyclic arenas). -/
def is_descendant : Nat → System → NodeId → NodeId → Bool
  | 0, _, _, _ => false
  | fuel + 1, s, ancestor, d =>
    if ancestor == d then true
    else
      match get_node s ancestor with
      | none => false
      | some node => node.children.any fun c => is_descendant fuel s c d

/-- Step 2 of C++ `delete_node`: release the node's component slot to the
matching pool's free list (`default: break` for Generic/Center). -/
def free_component (s : System) (node : Node) : System :=
  match node.type with
  | NodeType.Box => { s with components := { s.components with
      free_boxes := s.components.free_boxes ++ [node.component_index] } }
  | NodeType.Flow => { s with components := { s.components with
      free_flows := s.components.free_flows ++ [node.component_index] } }
  | NodeType.Margin => { s with components := { s.components with
      free_margins := s.components.free_margins ++ [node.component_index] } }
  | _ => s

/-- Removing `x` from the children list of `parent` (step 3 of C++
`delete_node` and step 1 of C++ `reparent_node`): a no-op when `parent` is
null or no longer resolvable; otherwise erase the first occurrence. -/
def unlink_child (s : System) (parent x : NodeId) : System :=
  if parent.is_null then s
  else
    match get_node s parent with
    | none => s
    | some p => setNode s parent.index { p with children := p.children.erase x }

/-- Step 4 of C++ `delete_node`: mark the slot dead, increment its
generation, clear its links. -/
def kill_slot (s : System) (i : Nat) : System :=
  setNode s i { nodeAt s i with alive := false,
                                generation := (nodeAt s i).generation + 1,
                                children := [], parent := NullNode }

/-- C++ `delete_node`: cascade into children, release the component slot,
unlink from the parent, kill the slot (bumping its generation), push the
index on the free list. -/
def delete_node : Nat → System → NodeId → System × Bool
  | 0, s, _ => (s, false)
  | fuel + 1, s, id =>
    if !is_valid s id then (s, false)
    else
      let childrenCopy := (nodeAt s id.index).children
      let s1 := childrenCopy.foldl (fun acc c => (delete_node fuel acc c).1) s
      let s2 := free_component s1 (nodeAt s1 id.index)
      let s3 := unlink_child s2 (nodeAt s2 id.index).parent id
      let s4 := kill_slot s3 id.index
      ({ s4 with free_list := s4.free_list ++ [id.index] }, true)

/-- C++ `reparent_node`: validity, self and cycle checks, then unlink from
the old parent, append to the new parent, update the parent link. -/
def reparent_node (fuel : Nat) (s : System) (node_id new_parent : NodeId) : System × Bool :=
  if !is_valid s node_id then (s, false)
  else if !new_parent.is_null && !is_valid s new_parent then (s, false)
  else if node_id == new_parent then (s, false)
  else if !new_parent.is_null && is_descendant fuel s node_id new_parent then (s, false)
  else
    let s1 := unlink_child s (nodeAt s node_id.index).parent node_id
    let s2 :=
      if !new_parent.is_null then
        let np := nodeAt s1 new_parent.index
        setNode s1 new_parent.index { np with children := np.children ++ [node_id] }
      else s1
    let s3 := setNode s2 node_id.index { nodeAt s2 node_id.index with parent := new_parent }
    (s3, true)

/-! ### Layout engine -/

/-- C++ `resolve_anchors`: compute the anchor rectangle from the parent's
resolved rectangle; per axis, override the child's origin/size only when
the anchor rectangle has positive extent on that axis. -/
def resolve_anchors (child parent : Node) : Node :=
  let parent_left := parent.bounds.origin.x
  let parent_top := parent.bounds.origin.y
  let x0 := parent_left + child.anchors.left * parent.bounds.size.x + child.offsets.left
  let y0 := parent_top + child.anchors.top * parent.bounds.size.y + child.offsets.top
  let x1 := parent_left + child.anchors.right * parent.bounds.size.x - child.offsets.right
  let y1 := parent_top + child.anchors.bottom * parent.bounds.size.y - child.offsets.bottom
  let child :=
    if x0 < x1 then
      { child with bounds := { child.bounds with
          origin := { child.bounds.origin with x := x0 },
          size := { child.bounds.size with x := x1 - x0 } } }
    else child
  if y0 < y1 then
    { child with bounds := { child.bounds with
        origin := { child.bounds.origin with y := y0 },
        size := { child.bounds.size with y := y1 - y0 } } }
  else child

/-- The record C++ `layout_generic` writes back for one child: anchors,
then minimum size, then expand-fill of the parent extent per axis. -/
def generic_write (node child : Node) : Node :=
  let child := resolve_anchors child node
  let child := { child with bounds := { child.bounds with
      size := ⟨max child.bounds.size.x child.minimum_size.x,
              max child.bounds.size.y child.minimum_size.y⟩ } }
  let child :=
    if 0 < child.expand.x then
      { child with bounds := { child.bounds with
          size := { child.bounds.size with x := max child.bounds.size.x node.bounds.size.x } } }
    else child
  if 0 < child.expand.y then
    { child with bounds := { child.bounds with
        size := { child.bounds.size with y := max child.bounds.size.y node.bounds.size.y } } }
  else child

/-- Loop body of C++ `layout_generic`. -/
def generic_child (node : Node) (s : System) (cid : NodeId) : System :=
  match get_node s cid with
  | none => s
  | some child => setNode s cid.index (generic_write node child)

/-- C++ `layout_generic`. -/
def layout_generic (s : System) (node : Node) : System :=
  node.children.foldl (generic_child node) s

/-- The record C++ `layout_center` writes back for one child: candidate
size from `minimum_size` and `expand`, centered inside the parent
rectangle (the anchor resolution is overwritten wholesale). -/
def center_write (node child : Node) : Node :=
  let child := resolve_anchors child node
  let size := child.minimum_size
  let size := if 0 < child.expand.x then { size with x := node.bounds.size.x } else size
  let size := if 0 < child.expand.y then { size with y := node.bounds.size.y } else size
  let off : float2 := ⟨(node.bounds.size.x - size.x) * (1 / 2),
                       (node.bounds.size.y - size.y) * (1 / 2)⟩
  { child with bounds := ⟨node.bounds.origin + off, size⟩ }

/-- Loop body of C++ `layout_center`. -/
def center_child (node : Node) (s : System) (cid : NodeId) : System :=
  match get_node s cid with
  | none => s
  | some child => setNode s cid.index (center_write node child)

/-- C++ `layout_center`. -/
def layout_center (s : System) (node : Node) : System :=
  if node.children.isEmpty then s
  else node.children.foldl (center_child node) s

/-- Main-axis component selector used throughout `layout_box`. -/
def axis_main (d : Direction) (v : float2) : ℚ :=
  match d with
  | Direction.Horizontal => v.x
  | Direction.Vertical => v.y

/-- The candidate size C++ `layout_box` computes for a child: the child's
`minimum_size`, grown on the main axis by its share of the leftover when it
expands there and some sibling carries stretch weight. -/
def box_size (data : BoxData) (leftover total_stretch : ℚ) (c : Node) : float2 :=
  let size := c.minimum_size
  let expand_axis := axis_main data.direction c.expand
  let stretch_axis := axis_main data.direction c.stretch
  if 0 < expand_axis ∧ 0 < total_stretch then
    match data.direction with
    | Direction.Horizontal => { size with x := size.x + leftover * (stretch_axis / total_stretch) }
    | Direction.Vertical => { size with y := size.y + leftover * (stretch_axis / total_stretch) }
  else size

/-- The record C++ `layout_box` writes back for one child: main-axis origin
at the cursor, main-axis size overwritten with the candidate size, cross
size maxed with the anchor-resolved cross size, cross origin pinned to the
parent's. -/
def box_write (node : Node) (data : BoxData) (leftover total_stretch : ℚ)
    (cursor : ℚ) (c : Node) : Node :=
  let size := box_size data leftover total_stretch c
  let c := resolve_anchors c node
  match data.direction with
  | Direction.Horizontal =>
    { c with bounds := ⟨⟨cursor, node.bounds.origin.y⟩,
                        ⟨size.x, max c.bounds.size.y size.y⟩⟩ }
  | Direction.Vertical =>
    { c with bounds := ⟨⟨node.bounds.origin.x, cursor⟩,
                        ⟨max c.bounds.size.x size.x, size.y⟩⟩ }

/-- Loop body of C++ `layout_box` (second pass): write the child, advance
the cursor by the candidate main size plus spacing. -/
def box_child (node : Node) (data : BoxData) (leftover total_stretch spacing : ℚ)
    (p : ℚ × System) (cid : NodeId) : ℚ × System :=
  match get_node p.2 cid with
  | none => p
  | some c =>
    (p.1 + axis_main data.direction (box_size data leftover total_stretch c) + spacing,
     setNode p.2 cid.index (box_write node data leftover total_stretch p.1 c))

/-- First pass of C++ `layout_box`: total fixed main size and total stretch
weight of the expanding children. -/
def box_totals (s : System) (node : Node) (data : BoxData) : ℚ × ℚ :=
  node.children.foldl
    (fun (t : ℚ × ℚ) cid =>
      match get_node s cid with
      | none => t
      | some c =>
        (t.1 + axis_main data.direction c.minimum_size,
         if 0 < axis_main data.direction c.expand then t.2 + axis_main data.direction c.stretch
         else t.2))
    (0, 0)

/-- C++ `layout_box`. -/
def layout_box (s : System) (node : Node) (data : BoxData) : System :=
  if node.children.isEmpty then s
  else
    let totals := box_totals s node data
    let total_main := totals.1
    let total_stretch := totals.2
    let parent_main_size := axis_main data.direction node.bounds.size
    let leftover := max 0 (parent_main_size - total_main)
    let child_count := node.children.length
    let cursor :=
      match data.align with
      | Align.Start => axis_main data.direction node.bounds.origin
      | Align.Center => axis_main data.direction node.bounds.origin + leftover * (1 / 2)
      | Align.End => axis_main data.direction node.bounds.origin + leftover
      | Align.SpaceBetween => axis_main data.direction node.bounds.origin
    let spacing :=
      match data.align with
      | Align.SpaceBetween =>
        if 1 < child_count then leftover / ((child_count : ℚ) - 1) else 0
      | _ => 0
    (node.children.foldl (box_child node data leftover total_stretch spacing) (cursor, s)).2

/-- The candidate size C++ `layout_flow` computes for a child:
`minimum_size`, with the cross axis expanded to the parent's extent when
`expand` is set there (the main axis is never auto-expanded). -/
def flow_size (node : Node) (data : FlowData) (child : Node) : float2 :=
  let size := child.minimum_size
  match data.direction with
  | Direction.Horizontal =>
    if 0 < child.expand.y then { size with y := node.bounds.size.y } else size
  | Direction.Vertical =>
    if 0 < child.expand.x then { size with x := node.bounds.size.x } else size

/-- The cursor state C++ `layout_flow` has after the wrap check for a
child: the (possibly reset) offset and line cross extent. -/
def flow_wrap (node : Node) (data : FlowData) (off : float2) (cross_line : ℚ)
    (child : Node) : float2 × ℚ :=
  let size := flow_size node data child
  match data.direction with
  | Direction.Horizontal =>
    let parent_right := node.bounds.origin.x + node.bounds.size.x
    if parent_right < off.x + size.x then (⟨node.bounds.origin.x, off.y + cross_line⟩, 0)
    else (off, cross_line)
  | Direction.Vertical =>
    let parent_bottom := node.bounds.origin.y + node.bounds.size.y
    if parent_bottom < off.y + size.y then (⟨off.x + cross_line, node.bounds.origin.y⟩, 0)
    else (off, cross_line)

/-- The record C++ `layout_flow` writes back for one child: placed at the
post-wrap cursor with the candidate size (anchor resolution is performed
but then overwritten wholesale). -/
def flow_write (node : Node) (data : FlowData) (off : float2) (cross_line : ℚ)
    (child : Node) : Node :=
  let child1 := resolve_anchors child node
  { child1 with bounds := ⟨(flow_wrap node data off cross_line child).1,
                           flow_size node data child⟩ }

/-- Loop body of C++ `layout_flow`: wrap if needed, place the child,
advance the main cursor, update the line cross extent. -/
def flow_child (node : Node) (data : FlowData)
    (p : (float2 × ℚ) × System) (cid : NodeId) : (float2 × ℚ) × System :=
  match get_node p.2 cid with
  | none => p
  | some child =>
    let w := flow_wrap node data p.1.1 p.1.2 child
    let size := flow_size node data child
    let s1 := setNode p.2 cid.index (flow_write node data p.1.1 p.1.2 child)
    match data.direction with
    | Direction.Horizontal => ((⟨w.1.x + size.x, w.1.y⟩, max w.2 size.y), s1)
    | Direction.Vertical => ((⟨w.1.x, w.1.y + size.y⟩, max w.2 size.x), s1)

/-- C++ `layout_flow`. -/
def layout_flow (s : System) (node : Node) (data : FlowData) : System :=
  if node.children.isEmpty then s
  else ((node.children.foldl (flow_child node data) ((node.bounds.origin, 0), s))).2

/-- The record C++ `layout_margin` writes back for one child: anchors
resolved against the inner rectangle (a copy of the node with its bounds
replaced), then minimum size and expand-fill against the inner extents. -/
def margin_write (node : Node) (inner_origin inner_size : float2) (child : Node) : Node :=
  let fake_parent := { node with bounds := ⟨inner_origin, inner_size⟩ }
  let child := resolve_anchors child fake_parent
  let child := { child with bounds := { child.bounds with
      size := ⟨max child.bounds.size.x child.minimum_size.x,
              max child.bounds.size.y child.minimum_size.y⟩ } }
  let child :=
    if 0 < child.expand.x then
      { child with bounds := { child.bounds with
          size := { child.bounds.size with x := max child.bounds.size.x inner_size.x } } }
    else child
  if 0 < child.expand.y then
    { child with bounds := { child.bounds with
        size := { child.bounds.size with y := max child.bounds.size.y inner_size.y } } }
  else child

/-- Loop body of C++ `layout_margin`. -/
def margin_child (node : Node) (inner_origin inner_size : float2)
    (s : System) (cid : NodeId) : System :=
  match get_node s cid with
  | none => s
  | some child => setNode s cid.index (margin_write node inner_origin inner_size child)

/-- C++ `layout_margin`. -/
def layout_margin (s : System) (node : Node) (data : MarginData) : System :=
  if node.children.isEmpty then s
  else
    let inner_origin : float2 := ⟨node.bounds.origin.x + data.left,
                                  node.bounds.origin.y + data.top⟩
    let inner_size : float2 := ⟨max 0 (node.bounds.size.x - data.left - data.right),
                                max 0 (node.bounds.size.y - data.top - data.bottom)⟩
    node.children.foldl (margin_child node inner_origin inner_size) s

/-- The type-dispatched layout step applied at one node (the `switch` in
C++ `compute_layout`).  Component data is fetched from the pool at
`component_index` (an out-of-range index, undefined behaviour in C++, reads
the default data). -/
def layout_step (s : System) (node : Node) : System :=
  match node.type with
  | NodeType.Generic => layout_generic s node
  | NodeType.Center => layout_center s node
  | NodeType.Box => layout_box s node (s.components.boxes.getD node.component_index default)
  | NodeType.Flow => layout_flow s node (s.components.flows.getD node.component_index default)
  | NodeType.Margin => layout_margin s node (s.components.margins.getD node.component_index default)

/-- C++ `compute_layout`: no-op on an invalid handle; otherwise run the
type-specific arrangement over the direct children, then recurse into each
child.  The fuel bounds the recursion depth (the C++ recursion is bounded
by tree depth on well-formed arenas). -/
def compute_layout : Nat → System → NodeId → System
  | 0, s, _ => s
  | fuel + 1, s, id =>
    match get_node s id with
    | none => s
    | some node =>
      let s1 := layout_step s node
      node.children.foldl (fun acc c => compute_layout fuel acc c) s1

/-! ### Spec-side variant for the anchor-identity claim (C7)

Per the spec, all-zero anchors/offsets make anchor resolution "a no-op,
letting the arrangement algorithm fully own that axis", and resolved
bounds must "equal whatever the arrangement algorithm would have produced
ignoring anchors entirely".  The `_skipzero` variants below are the same
arrangement algorithms with the anchor-resolution step removed (skipped)
for every child whose anchors and offsets are all zero. -/

/-- Anchor resolution with the step removed for all-zero anchor/offset
children (spec wording); otherwise unchanged. -/
def resolve_anchors_skip (child parent : Node) : Node :=
  if child.anchors = ⟨0, 0, 0, 0⟩ ∧ child.offsets = ⟨0, 0, 0, 0⟩ then child
  else resolve_anchors child parent

/-- `generic_write` with the anchor step skipped for zero-anchor children. -/
def generic_write_skip (node child : Node) : Node :=
  let child := resolve_anchors_skip child node
  let child := { child with bounds := { child.bounds with
      size := ⟨max child.bounds.size.x child.minimum_size.x,
              max child.bounds.size.y child.minimum_size.y⟩ } }
  let child :=
    if 0 < child.expand.x then
      { child with bounds := { child.bounds with
          size := { child.bounds.size with x := max child.bounds.size.x node.bounds.size.x } } }
    else child
  if 0 < child.expand.y then
    { child with bounds := { child.bounds with
        size := { child.bounds.size with y := max child.bounds.size.y node.bounds.size.y } } }
  else child

/-- `center_write` with the anchor step skipped for zero-anchor children. -/
def center_write_skip (node child : Node) : Node :=
  let child := resolve_anchors_skip child node
  let size := child.minimum_size
  let size := if 0 < child.expand.x then { size with x := node.bounds.size.x } else size
  let size := if 0 < child.expand.y then { size with y := node.bounds.size.y } else size
  let off : float2 := ⟨(node.bounds.size.x - size.x) * (1 / 2),
                       (node.bounds.size.y - size.y) * (1 / 2)⟩
  { child with bounds := ⟨node.bounds.origin + off, size⟩ }

/-- `box_write` with the anchor step skipped for zero-anchor children. -/
def box_write_skip (node : Node) (data : BoxData) (leftover total_stretch : ℚ)
    (cursor : ℚ) (c : Node) : Node :=
  let size := box_size data leftover total_stretch c
  let c := resolve_anchors_skip c node
  match data.direction with
  | Direction.Horizontal =>
    { c with bounds := ⟨⟨cursor, node.bounds.origin.y⟩,
                        ⟨size.x, max c.bounds.size.y size.y⟩⟩ }
  | Direction.Vertical =>
    { c with bounds := ⟨⟨node.bounds.origin.x, cursor⟩,
                        ⟨max c.bounds.size.x size.x, size.y⟩⟩ }

/-- `flow_write` with the anchor step skipped for zero-anchor children. -/
def flow_write_skip (node : Node) (data : FlowData) (off : float2) (cross_line : ℚ)
    (child : Node) : Node :=
  let child1 := resolve_anchors_skip child node
  { child1 with bounds := ⟨(flow_wrap node data off cross_line child).1,
                           flow_size node data child⟩ }

/-- `margin_write` with the anchor step skipped for zero-anchor children. -/
def margin_write_skip (node : Node) (inner_origin inner_size : float2) (child : Node) : Node :=
  let fake_parent := { node with bounds := ⟨inner_origin, inner_size⟩ }
  let child := resolve_anchors_skip child fake_parent
  let child := { child with bounds := { child.bounds with
      size := ⟨max child.bounds.size.x child.minimum_size.x,
              max child.bounds.size.y child.minimum_size.y⟩ } }
  let child :=
    if 0 < child.expand.x then
      { child with bounds := { child.bounds with
          size := { child.bounds.size with x := max child.bounds.size.x inner_size.x } } }
    else child
  if 0 < child.expand.y then
    { child with bounds := { child.bounds with
        size := { child.bounds.size with y := max child.bounds.size.y inner_size.y } } }
  else child

/-- `generic_child` over the skip variant. -/
def generic_child_skip (node : Node) (s : System) (cid : NodeId) : System :=
  match get_node s cid with
  | none => s
  | some child => setNode s cid.index (generic_write_skip node child)

/-- `center_child` over the skip variant. -/
def center_child_skip (node : Node) (s : System) (cid : NodeId) : System :=
  match get_node s cid with
  | none => s
  | some child => setNode s cid.index (center_write_skip node child)

/-- `box_child` over the skip variant. -/
def box_child_skip (node : Node) (data : BoxData) (leftover total_stretch spacing : ℚ)
    (p : ℚ × System) (cid : NodeId) : ℚ × System :=
  match get_node p.2 cid with
  | none => p
  | some c =>
    (p.1 + axis_main data.direction (box_size data leftover total_stretch c) + spacing,
     setNode p.2 cid.index (box_write_skip node data leftover total_stretch p.1 c))

/-- `flow_child` over the skip variant. -/
def flow_child_skip (node : Node) (data : FlowData)
    (p : (float2 × ℚ) × System) (cid : NodeId) : (float2 × ℚ) × System :=
  match get_node p.2 cid with
  | none => p
  | some child =>
    let w := flow_wrap node data p.1.1 p.1.2 child
    let size := flow_size node data child
    let s1 := setNode p.2 cid.index (flow_write_skip node data p.1.1 p.1.2 child)
    match data.direction with
    | Direction.Horizontal => ((⟨w.1.x + size.x, w.1.y⟩, max w.2 size.y), s1)
    | Direction.Vertical => ((⟨w.1.x, w.1.y + size.y⟩, max w.2 size.x), s1)

/-- `margin_child` over the skip variant. -/
def margin_child_skip (node : Node) (inner_origin inner_size : float2)
    (s : System) (cid : NodeId) : System :=
  match get_node s cid with
  | none => s
  | some child => setNode s cid.index (margin_write_skip node inner_origin inner_size child)

/-- `layout_generic` over the skip variant. -/
def layout_generic_skip (s : System) (node : Node) : System :=
  node.children.foldl (generic_child_skip node) s

/-- `layout_center` over the skip variant. -/
def layout_center_skip (s : System) (node : Node) : System :=
  if node.children.isEmpty then s
  else node.children.foldl (center_child_skip node) s

/-- `layout_box` over the skip variant. -/
def layout_box_skip (s : System) (node : Node) (data : BoxData) : System :=
  if node.children.isEmpty then s
  else
    let totals := box_totals s node data
    let total_main := totals.1
    let total_stretch := totals.2
    let parent_main_size := axis_main data.direction node.bounds.size
    let leftover := max 0 (parent_main_size - total_main)
    let child_count := node.children.length
    let cursor :=
      match data.align with
      | Align.Start => axis_main data.direction node.bounds.origin
      | Align.Center => axis_main data.direction node.bounds.origin + leftover * (1 / 2)
      | Align.End => axis_main data.direction node.bounds.origin + leftover
      | Align.SpaceBetween => axis_main data.direction node.bounds.origin
    let spacing :=
      match data.align with
      | Align.SpaceBetween =>
        if 1 < child_count then leftover / ((child_count : ℚ) - 1) else 0
      | _ => 0
    (node.children.foldl (box_child_skip node data leftover total_stretch spacing) (cursor, s)).2

/-- `layout_flow` over the skip variant. -/
def layout_flow_skip (s : System) (node : Node) (data : FlowData) : System :=
  if node.children.isEmpty then s
  else ((node.children.foldl (flow_child_skip node data) ((node.bounds.origin, 0), s))).2

/-- `layout_margin` over the skip variant. -/
def layout_margin_skip (s : System) (node : Node) (data : MarginData) : System :=
  if node.children.isEmpty then s
  else
    let inner_origin : float2 := ⟨node.bounds.origin.x + data.left,
                                  node.bounds.origin.y + data.top⟩
    let inner_size : float2 := ⟨max 0 (node.bounds.size.x - data.left - data.right),
                                max 0 (node.bounds.size.y - data.top - data.bottom)⟩
    node.children.foldl (margin_child_skip node inner_origin inner_size) s

/-- `layout_step` over the skip variants. -/
def layout_step_skip (s : System) (node : Node) : System :=
  match node.type with
  | NodeType.Generic => layout_generic_skip s node
  | NodeType.Center => layout_center_skip s node
  | NodeType.Box => layout_box_skip s node (s.components.boxes.getD node.component_index default)
  | NodeType.Flow => layout_flow_skip s node (s.components.flows.getD node.component_index default)
  | NodeType.Margin => layout_margin_skip s node (s.components.margins.getD node.component_index default)

/-- `compute_layout` with the anchor-resolution step removed for every
child whose anchors and offsets are all zero. -/
def compute_layout_skipzero : Nat → System → NodeId → System
  | 0, s, _ => s
  | fuel + 1, s, id =>
    match get_node s id with
    | none => s
    | some node =>
      let s1 := layout_step_skip s node
      node.children.foldl (fun acc c => compute_layout_skipzero fuel acc c) s1

/-! ### Arena operation sequences (for the handle-safety claim) -/

/-- One host-visible arena operation. -/
inductive Op where
  | addGeneric (parent : NodeId)
  | addCenter (parent : NodeId)
  | addBox (parent : NodeId) (data : BoxData)
  | addFlow (parent : NodeId) (data : FlowData)
  | addMargin (parent : NodeId) (data : MarginData)
  | del (fuel : Nat) (id : NodeId)
  | reparent (fuel : Nat) (id : NodeId) (new_parent : NodeId)

/-- Execute one operation (dropping the returned value). -/
def applyOp (s : System) : Op → System
  | Op.addGeneric p => (add_generic s p).1
  | Op.addCenter p => (add_center s p).1
  | Op.addBox p d => (add_box s p d).1
  | Op.addFlow p d => (add_flow s p d).1
  | Op.addMargin p d => (add_margin s p d).1
  | Op.del fuel id => (delete_node fuel s id).1
  | Op.reparent fuel id np => (reparent_node fuel s id np).1

/-- Execute a sequence of operations. -/
def runOps (s : System) : List Op → System := List.foldl applyOp s

/-- The handle an operation would return when executed in state `s`
(`none` for the operations that do not create a node). -/
def createdId (s : System) : Op → Option NodeId
  | Op.addGeneric p => some (add_generic s p).2
  | Op.addCenter p => some (add_center s p).2
  | Op.addBox p d => some (add_box s p d).2
  | Op.addFlow p d => some (add_flow s p d).2
  | Op.addMargin p d => some (add_margin s p d).2
  | Op.del _ _ => none
  | Op.reparent _ _ _ => none

/-- A handle is stale: its slot exists and has already moved to a strictly
greater generation. -/
def stale (s : System) (n : NodeId) : Prop :=
  n.index < s.nodes.length ∧ n.generation < (nodeAt s n.index).generation

/-- Slot generations only grow (and storage only grows) from `s` to `s'`. -/
def genLe (s s' : System) : Prop :=
  s.nodes.length ≤ s'.nodes.length ∧
  ∀ i, (nodeAt s i).generation ≤ (nodeAt s' i).generation

/-! ### Accumulator bookkeeping for the child folds -/

/-- The cursor advance of one `layout_box` loop iteration
(`cursor += size.main + spacing`). -/
def box_advance (data : BoxData) (leftover total_stretch spacing : ℚ)
    (cursor : ℚ) (c : Node) : ℚ :=
  cursor + axis_main data.direction (box_size data leftover total_stretch c) + spacing

/-- The cursor/line advance of one `layout_flow` loop iteration. -/
def flow_advance (node : Node) (data : FlowData) (oc : float2 × ℚ) (child : Node) :
    float2 × ℚ :=
  let w := flow_wrap node data oc.1 oc.2 child
  let size := flow_size node data child
  match data.direction with
  | Direction.Horizontal => (⟨w.1.x + size.x, w.1.y⟩, max w.2 size.y)
  | Direction.Vertical => (⟨w.1.x, w.1.y + size.y⟩, max w.2 size.x)

/-- The accumulator value after feeding the (current records of the)
listed children through the advance function `A`. -/
def accFold {α : Type} (A : α → Node → α) (a : α) (l : List NodeId) (s : System) : α :=
  l.foldl (fun acc c => A acc (nodeAt s c.index)) a

/-! ### Helper predicates for the general theorems -/

/-- The non-bounds part of a node record (everything the layout engine
never writes). -/
def Node.shape (n : Node) : Node := { n with bounds := {} }

/-- Structural agreement of two arenas: same slot count, same per-slot
shapes, same components, free list and root list; only `bounds` may
differ. -/
def structEq (s1 s2 : System) : Prop :=
  s1.nodes.length = s2.nodes.length ∧
  (∀ i, (nodeAt s1 i).shape = (nodeAt s2 i).shape) ∧
  s1.components = s2.components ∧ s1.free_list = s2.free_list ∧
  s1.children = s2.children

/-- Every slot's resolved size is componentwise nonnegative. -/
def sizes_nonneg (s : System) : Prop :=
  ∀ i, 0 ≤ (nodeAt s i).bounds.size.x ∧ 0 ≤ (nodeAt s i).bounds.size.y

/-- Every slot's layout inputs that feed sizes are nonnegative
(`minimum_size` and `stretch`, both axes). -/
def layout_inputs_nonneg (s : System) : Prop :=
  ∀ i, 0 ≤ (nodeAt s i).minimum_size.x ∧ 0 ≤ (nodeAt s i).minimum_size.y ∧
    0 ≤ (nodeAt s i).stretch.x ∧ 0 ≤ (nodeAt s i).stretch.y

/-- The invariant carried through the layout pass. -/
def nonneg_inv (s : System) : Prop := sizes_nonneg s ∧ layout_inputs_nonneg s

/-! ### Concrete systems used by the scenario claims -/

/-- C2: the Margin node of the spec's margin scenario. -/
def margin_scn_root : Node :=
  { bounds := ⟨⟨0, 0⟩, ⟨100, 100⟩⟩, type := NodeType.Margin, component_index := 0,
    children := [⟨1, 0⟩] }

/-- C2: the child (expand both axes, everything else default). -/
def margin_scn_child : Node := { expand := ⟨1, 1⟩ }

/-- C2: a 100×100 Margin root with insets 10 on every side and one
expanding child. -/
def margin_scn_sys : System :=
  { nodes := [margin_scn_root, margin_scn_child],
    components := { margins := [⟨10, 10, 10, 10⟩] } }

/-- C9: the Flow node (Horizontal, width 70). -/
def flow_scn_root : Node :=
  { bounds := ⟨⟨0, 0⟩, ⟨70, 100⟩⟩, type := NodeType.Flow, component_index := 0,
    children := [⟨1, 0⟩, ⟨2, 0⟩, ⟨3, 0⟩] }

/-- C9: one 30×20 child. -/
def flow_scn_child : Node := { minimum_size := ⟨30, 20⟩ }

/-- C9: Flow root with three 30-wide children in a 70-wide parent. -/
def flow_scn_sys : System :=
  { nodes := [flow_scn_root, flow_scn_child, flow_scn_child, flow_scn_child],
    components := { flows := [{}] } }

/-- C4: a Horizontal Box root, 100×100. -/
def box_cross_root : Node :=
  { bounds := ⟨⟨0, 0⟩, ⟨100, 100⟩⟩, type := NodeType.Box, component_index := 0,
    children := [⟨1, 0⟩] }

/-- C4: a child with cross-axis minimum 10 that asks to expand on the
cross (y) axis. -/
def box_cross_child : Node := { minimum_size := ⟨30, 10⟩, expand := ⟨0, 1⟩ }

/-- C4: Box system exercising the cross-axis expand flag. -/
def box_cross_sys : System :=
  { nodes := [box_cross_root, box_cross_child], components := { boxes := [{}] } }

/-- C5: a Center root, 100×100. -/
def center_neg_root : Node :=
  { bounds := ⟨⟨0, 0⟩, ⟨100, 100⟩⟩, type := NodeType.Center, children := [⟨1, 0⟩] }

/-- C5: a child with negative `minimum_size`. -/
def center_neg_child : Node := { minimum_size := ⟨-5, -5⟩ }

/-- C5: Center system with a negative-minimum child. -/
def center_neg_sys : System := { nodes := [center_neg_root, center_neg_child] }

/-- C5 (witness side): a child with nonnegative `minimum_size`. -/
def center_pos_child : Node := { minimum_size := ⟨5, 5⟩ }

/-- C5 (witness side): the same Center tree with nonnegative inputs. -/
def center_pos_sys : System := { nodes := [center_neg_root, center_pos_child] }

/-- C1: a one-node arena for the witness. -/
def c1_sys : System := ⟨[{}], {}, [], []⟩

/-! ### Tree skeletons for the idempotence claim (C8)

`compute_layout` recurses along `children` edges; the spec quantifies C8
over trees.  An `LTree` records the intended slot index of every node of
such a tree, `reprB` checks that a system really stores that tree (each
handle valid and its slot's `children` matching the forest below it), and
`flat` collects all slot indices so that sharing/aliasing can be ruled out
by a `Nodup` side condition. -/

inductive LTree where
  | node (idx : Nat) (kids : List LTree)

/-- The slot index at the root of a tree skeleton. -/
def LTree.idx : LTree → Nat
  | .node i _ => i

/-- The forest directly below the root. -/
def LTree.kids : LTree → List LTree
  | .node _ ks => ks

mutual

/-- All slot indices of a tree skeleton (root first). -/
def LTree.flat : LTree → List Nat
  | .node i ks => i :: LTree.flatList ks

/-- All slot indices of a forest. -/
def LTree.flatList : List LTree → List Nat
  | [] => []
  | t :: ts => LTree.flat t ++ LTree.flatList ts

end

/-- All slot indices strictly below the root. -/
def LTree.proper (t : LTree) : List Nat := LTree.flatList t.kids

mutual

/-- `reprB s id t`: handle `id` is valid in `s`, points at slot `t.idx`,
and the slot's `children` handles represent the forest `t.kids`. -/
def reprB (s : System) (id : NodeId) : LTree → Bool
  | .node i ks =>
    is_valid s id && (id.index == i) && reprKids s (nodeAt s id.index).children ks

/-- `reprKids s cs ts`: the handle list `cs` represents the forest `ts`
pointwise (same length, each handle representing its tree). -/
def reprKids (s : System) : List NodeId → List LTree → Bool
  | [], [] => true
  | c :: cs, t :: ts => reprB s c t && reprKids s cs ts
  | _, _ => false

end

/-- C8 witness: a Generic root over one leaf child. -/
def c8_root : Node :=
  { bounds := ⟨⟨0, 0⟩, ⟨50, 40⟩⟩, type := NodeType.Generic, children := [⟨1, 0⟩] }

/-- C8 witness: the leaf child. -/
def c8_child : Node := { minimum_size := ⟨10, 10⟩, parent := ⟨0, 0⟩ }

/-- C8 witness: the two-node arena. -/
def c8_sys : System := { nodes := [c8_root, c8_child] }

/-- C8 witness: the skeleton of that arena's tree. -/
def c8_tree : LTree := .node 0 [.node 1 []]

/-! ### Basic lemmas: slots, shapes, structural agreement -/

theorem float2.add_def (a b : float2) : a + b = ⟨a.x + b.x, a.y + b.y⟩ := rfl

theorem default_node_eq : (default : Node) = defaultNode := rfl

theorem length_setNode (s : System) (i : Nat) (n : Node) :
    (setNode s i n).nodes.length = s.nodes.length := List.length_set ..

theorem setNode_oob (s : System) (i : Nat) (n : Node) (h : s.nodes.length ≤ i) :
    setNode s i n = s := by
  simp only [setNode, List.set_eq_of_length_le h]

theorem nodeAt_setNode_self (s : System) (i : Nat) (n : Node) (h : i < s.nodes.length) :
    nodeAt (setNode s i n) i = n := by
  simp [nodeAt, setNode, List.getD_eq_getElem?_getD, List.getElem?_set_self h]

theorem nodeAt_setNode_ne (s : System) (i j : Nat) (n : Node) (h : i ≠ j) :
    nodeAt (setNode s i n) j = nodeAt s j := by
  simp [nodeAt, setNode, List.getD_eq_getElem?_getD, List.getElem?_set_ne h]

theorem get_node_some {s : System} {id : NodeId} {n : Node} (h : get_node s id = some n) :
    is_valid s id = true ∧ n = nodeAt s id.index := by
  unfold get_node at h
  split at h
  · exact ⟨by assumption, (Option.some.inj h).symm⟩
  · cases h

theorem get_node_none {s : System} {id : NodeId} (h : get_node s id = none) :
    is_valid s id = false := by
  cases hb : is_valid s id
  · rfl
  · unfold get_node at h
    rw [hb] at h
    simp at h

theorem structEq_refl (s : System) : structEq s s := ⟨rfl, fun _ => rfl, rfl, rfl, rfl⟩

theorem structEq_symm {s1 s2 : System} (h : structEq s1 s2) : structEq s2 s1 :=
  ⟨h.1.symm, fun i => (h.2.1 i).symm, h.2.2.1.symm, h.2.2.2.1.symm, h.2.2.2.2.symm⟩

theorem structEq_trans {s1 s2 s3 : System} (h : structEq s1 s2) (h' : structEq s2 s3) :
    structEq s1 s3 :=
  ⟨h.1.trans h'.1, fun i => (h.2.1 i).trans (h'.2.1 i), h.2.2.1.trans h'.2.2.1,
   h.2.2.2.1.trans h'.2.2.2.1, h.2.2.2.2.trans h'.2.2.2.2⟩

theorem structEq_setNode (s : System) (i : Nat) (n : Node)
    (h : n.shape = (nodeAt s i).shape) : structEq (setNode s i n) s := by
  refine ⟨length_setNode .., fun j => ?_, rfl, rfl, rfl⟩
  by_cases hij : i = j
  · subst hij
    by_cases hr : i < s.nodes.length
    · rw [nodeAt_setNode_self _ _ _ hr, h]
    · rw [setNode_oob _ _ _ (le_of_not_lt hr)]
  · rw [nodeAt_setNode_ne _ _ _ _ hij]

theorem shape_alive (n : Node) : n.shape.alive = n.alive := rfl

theorem shape_generation (n : Node) : n.shape.generation = n.generation := rfl

theorem shape_minimum_size (n : Node) : n.shape.minimum_size = n.minimum_size := rfl

theorem shape_stretch (n : Node) : n.shape.stretch = n.stretch := rfl

theorem shape_expand (n : Node) : n.shape.expand = n.expand := rfl

theorem shape_children (n : Node) : n.shape.children = n.children := rfl

theorem shape_parent (n : Node) : n.shape.parent = n.parent := rfl

theorem shape_type (n : Node) : n.shape.type = n.type := rfl

theorem shape_component_index (n : Node) : n.shape.component_index = n.component_index := rfl

theorem shape_anchors (n : Node) : n.shape.anchors = n.anchors := rfl

theorem shape_offsets (n : Node) : n.shape.offsets = n.offsets := rfl

theorem proj_of_shape_eq {n1 n2 : Node} (h : n1.shape = n2.shape) :
    n1.alive = n2.alive ∧ n1.generation = n2.generation ∧
    n1.minimum_size = n2.minimum_size ∧ n1.stretch = n2.stretch ∧
    n1.expand = n2.expand ∧ n1.children = n2.children ∧ n1.parent = n2.parent ∧
    n1.type = n2.type ∧ n1.component_index = n2.component_index ∧
    n1.anchors = n2.anchors ∧ n1.offsets = n2.offsets := by
  refine ⟨?_, ?_, ?_, ?_, ?_, ?_, ?_, ?_, ?_, ?_, ?_⟩ <;>
    first
    | (have hq := congrArg Node.alive h; rwa [shape_alive, shape_alive] at hq)
    | (have hq := congrArg Node.generation h; rwa [shape_generation, shape_generation] at hq)
    | (have hq := congrArg Node.minimum_size h;
       rwa [shape_minimum_size, shape_minimum_size] at hq)
    | (have hq := congrArg Node.stretch h; rwa [shape_stretch, shape_stretch] at hq)
    | (have hq := congrArg Node.expand h; rwa [shape_expand, shape_expand] at hq)
    | (have hq := congrArg Node.children h; rwa [shape_children, shape_children] at hq)
    | (have hq := congrArg Node.parent h; rwa [shape_parent, shape_parent] at hq)
    | (have hq := congrArg Node.type h; rwa [shape_type, shape_type] at hq)
    | (have hq := congrArg Node.component_index h;
       rwa [shape_component_index, shape_component_index] at hq)
    | (have hq := congrArg Node.anchors h; rwa [shape_anchors, shape_anchors] at hq)
    | (have hq := congrArg Node.offsets h; rwa [shape_offsets, shape_offsets] at hq)

theorem is_valid_structEq {s1 s2 : System} (h : structEq s1 s2) (id : NodeId) :
    is_valid s1 id = is_valid s2 id := by
  obtain ⟨ha, hg, -⟩ := proj_of_shape_eq (h.2.1 id.index)
  unfold is_valid
  rw [h.1, ha, hg]

theorem inputs_nonneg_structEq {s1 s2 : System} (h : structEq s1 s2)
    (h2 : layout_inputs_nonneg s2) : layout_inputs_nonneg s1 := by
  intro i
  obtain ⟨-, -, hm, hs, -⟩ := proj_of_shape_eq (h.2.1 i)
  rw [hm, hs]
  exact h2 i

/-! ### The layout pass only writes bounds (structural preservation) -/

theorem shape_setBounds (a : Node) (r : Rect) :
    Node.shape { a with bounds := r } = a.shape := rfl

theorem resolve_anchors_shape (c p : Node) : (resolve_anchors c p).shape = c.shape := by
  unfold resolve_anchors
  cases c
  dsimp only
  split_ifs <;> rfl

theorem generic_write_shape (node c : Node) : (generic_write node c).shape = c.shape := by
  unfold generic_write
  dsimp only
  split_ifs <;> simp only [shape_setBounds, resolve_anchors_shape]

theorem center_write_shape (node c : Node) : (center_write node c).shape = c.shape := by
  unfold center_write
  dsimp only
  simp only [shape_setBounds, resolve_anchors_shape]

theorem box_write_shape (node : Node) (data : BoxData) (leftover total_stretch cursor : ℚ)
    (c : Node) : (box_write node data leftover total_stretch cursor c).shape = c.shape := by
  unfold box_write
  cases data.direction <;>
    simp only [shape_setBounds, resolve_anchors_shape]

theorem flow_write_shape (node : Node) (data : FlowData) (off : float2) (cross_line : ℚ)
    (c : Node) : (flow_write node data off cross_line c).shape = c.shape := by
  unfold flow_write
  dsimp only
  simp only [shape_setBounds, resolve_anchors_shape]

theorem margin_write_shape (node : Node) (io isz : float2) (c : Node) :
    (margin_write node io isz c).shape = c.shape := by
  unfold margin_write
  dsimp only
  split_ifs <;> simp only [shape_setBounds, resolve_anchors_shape]

theorem foldl_structEq {α : Type} (f : α × System → NodeId → α × System)
    (hf : ∀ p c, structEq ((f p c).2) p.2) (l : List NodeId) (p : α × System) :
    structEq ((l.foldl f p).2) p.2 := by
  induction l generalizing p with
  | nil => exact structEq_refl _
  | cons c t ih => exact structEq_trans (ih (f p c)) (hf p c)

theorem foldl_structEq' (f : System → NodeId → System)
    (hf : ∀ s c, structEq (f s c) s) (l : List NodeId) (s : System) :
    structEq (l.foldl f s) s := by
  induction l generalizing s with
  | nil => exact structEq_refl _
  | cons c t ih => exact structEq_trans (ih (f s c)) (hf s c)

theorem generic_child_structEq (node : Node) (s : System) (cid : NodeId) :
    structEq (generic_child node s cid) s := by
  unfold generic_child
  cases hg : get_node s cid with
  | none => exact structEq_refl s
  | some child =>
    exact structEq_setNode _ _ _
      (by rw [generic_write_shape, (get_node_some hg).2])

theorem center_child_structEq (node : Node) (s : System) (cid : NodeId) :
    structEq (center_child node s cid) s := by
  unfold center_child
  cases hg : get_node s cid with
  | none => exact structEq_refl s
  | some child =>
    exact structEq_setNode _ _ _
      (by rw [center_write_shape, (get_node_some hg).2])

theorem box_child_structEq (node : Node) (data : BoxData) (leftover total_stretch spacing : ℚ)
    (p : ℚ × System) (cid : NodeId) :
    structEq ((box_child node data leftover total_stretch spacing p cid).2) p.2 := by
  unfold box_child
  cases hg : get_node p.2 cid with
  | none => exact structEq_refl _
  | some c =>
    exact structEq_setNode _ _ _
      (by rw [box_write_shape, (get_node_some hg).2])

theorem flow_child_structEq (node : Node) (data : FlowData)
    (p : (float2 × ℚ) × System) (cid : NodeId) :
    structEq ((flow_child node data p cid).2) p.2 := by
  unfold flow_child
  cases hg : get_node p.2 cid with
  | none => exact structEq_refl _
  | some c =>
    cases data.direction <;>
      exact structEq_setNode _ _ _
        (by rw [flow_write_shape, (get_node_some hg).2])

theorem margin_child_structEq (node : Node) (io isz : float2) (s : System) (cid : NodeId) :
    structEq (margin_child node io isz s cid) s := by
  unfold margin_child
  cases hg : get_node s cid with
  | none => exact structEq_refl s
  | some child =>
    exact structEq_setNode _ _ _
      (by rw [margin_write_shape, (get_node_some hg).2])

theorem layout_generic_structEq (s : System) (node : Node) :
    structEq (layout_generic s node) s :=
  foldl_structEq' _ (generic_child_structEq node) _ _

theorem layout_center_structEq (s : System) (node : Node) :
    structEq (layout_center s node) s := by
  unfold layout_center
  split
  · exact structEq_refl s
  · exact foldl_structEq' _ (center_child_structEq node) _ _

theorem layout_box_structEq (s : System) (node : Node) (data : BoxData) :
    structEq (layout_box s node data) s := by
  unfold layout_box
  split
  · exact structEq_refl s
  · exact foldl_structEq _ (box_child_structEq node _ _ _ _) _ _

theorem layout_flow_structEq (s : System) (node : Node) (data : FlowData) :
    structEq (layout_flow s node data) s := by
  unfold layout_flow
  split
  · exact structEq_refl s
  · exact foldl_structEq _ (flow_child_structEq node _) _ _

theorem layout_margin_structEq (s : System) (node : Node) (data : MarginData) :
    structEq (layout_margin s node data) s := by
  unfold layout_margin
  split
  · exact structEq_refl s
  · exact foldl_structEq' _ (margin_child_structEq node _ _) _ _

theorem layout_step_structEq (s : System) (node : Node) :
    structEq (layout_step s node) s := by
  cases htype : node.type <;> simp only [layout_step, htype]
  · exact layout_generic_structEq s node
  · exact layout_center_structEq s node
  · exact layout_box_structEq s node _
  · exact layout_flow_structEq s node _
  · exact layout_margin_structEq s node _

theorem compute_layout_structEq (fuel : Nat) :
    ∀ (s : System) (id : NodeId), structEq (compute_layout fuel s id) s := by
  induction fuel with
  | zero => intro s id; exact structEq_refl s
  | succ f ih =>
    intro s id
    unfold compute_layout
    cases hg : get_node s id with
    | none => exact structEq_refl s
    | some node =>
      exact structEq_trans (foldl_structEq' _ (fun s' c => ih s' c) _ _)
        (layout_step_structEq s node)

/-! ### Characterization of the child folds

Each arrangement loop writes, for the `k`-th (valid) child, a record that
is a function `W` of the accumulator after the first `k` children and of
the child's current record, and touches no other slot. -/

theorem valid_index_lt {s : System} {c : NodeId} (h : is_valid s c = true) :
    c.index < s.nodes.length := by
  unfold is_valid at h
  by_cases h1 : c.is_null = true
  · rw [if_pos h1] at h; simp at h
  · rw [if_neg h1] at h
    by_cases h2 : s.nodes.length ≤ c.index
    · rw [if_pos (decide_eq_true h2)] at h; simp at h
    · exact lt_of_not_le h2

theorem get_node_valid {s : System} {c : NodeId} (h : is_valid s c = true) :
    get_node s c = some (nodeAt s c.index) := by
  simp [get_node, h]

theorem accFold_congr {α : Type} (A : α → Node → α) {l : List NodeId}
    {s1 s2 : System} (h : ∀ c ∈ l, nodeAt s1 c.index = nodeAt s2 c.index) (a : α) :
    accFold A a l s1 = accFold A a l s2 := by
  induction l generalizing a with
  | nil => rfl
  | cons c t ih =>
    simp only [accFold, List.foldl_cons] at *
    rw [h c (List.mem_cons_self c t)]
    exact ih (fun d hd => h d (List.mem_cons_of_mem _ hd)) _

theorem foldl_char {α : Type} (step : α × System → NodeId → α × System)
    (W : α → Node → Node) (A : α → Node → α)
    (hstep : ∀ p c, step p c =
      match get_node p.2 c with
      | none => p
      | some n => (A p.1 n, setNode p.2 c.index (W p.1 n)))
    (hW : ∀ a n, (W a n).shape = n.shape) :
    ∀ (l : List NodeId) (a : α) (s : System),
      (∀ c ∈ l, is_valid s c = true) → (l.map NodeId.index).Nodup →
      (∀ k (hk : k < l.length),
        nodeAt ((l.foldl step (a, s)).2) (l.get ⟨k, hk⟩).index =
          W (accFold A a (l.take k) s) (nodeAt s (l.get ⟨k, hk⟩).index)) ∧
      (∀ i, i ∉ l.map NodeId.index → nodeAt ((l.foldl step (a, s)).2) i = nodeAt s i) ∧
      (l.foldl step (a, s)).1 = accFold A a l s := by
  intro l
  induction l with
  | nil =>
    intro a s _ _
    exact ⟨fun k hk => absurd hk (by simp), fun i _ => rfl, rfl⟩
  | cons c t ih =>
    intro a s hval hnodup
    have hc : is_valid s c = true := hval c (List.mem_cons_self c t)
    have hlen : c.index < s.nodes.length := valid_index_lt hc
    have hfold : (c :: t).foldl step (a, s) =
        t.foldl step (A a (nodeAt s c.index),
                      setNode s c.index (W a (nodeAt s c.index))) := by
      rw [List.foldl_cons, hstep, get_node_valid hc]
    have hSE : structEq (setNode s c.index (W a (nodeAt s c.index))) s :=
      structEq_setNode s c.index _ (by rw [hW])
    have hnodup' : (c.index :: t.map NodeId.index).Nodup := by simpa using hnodup
    have hnd1 : c.index ∉ t.map NodeId.index := (List.nodup_cons.mp hnodup').1
    have hnd2 : (t.map NodeId.index).Nodup := (List.nodup_cons.mp hnodup').2
    have hagree : ∀ d ∈ t,
        nodeAt (setNode s c.index (W a (nodeAt s c.index))) d.index = nodeAt s d.index := by
      intro d hd
      refine nodeAt_setNode_ne _ _ _ _ (fun he => hnd1 ?_)
      rw [he]
      exact List.mem_map_of_mem NodeId.index hd
    have hval' : ∀ d ∈ t,
        is_valid (setNode s c.index (W a (nodeAt s c.index))) d = true := by
      intro d hd
      rw [is_valid_structEq hSE]
      exact hval d (List.mem_cons_of_mem _ hd)
    obtain ⟨ihchar, ihframe, ihacc⟩ := ih (A a (nodeAt s c.index)) _ hval' hnd2
    refine ⟨?_, ?_, ?_⟩
    · intro k hk
      cases k with
      | zero =>
        have hg : (c :: t).get ⟨0, hk⟩ = c := rfl
        rw [hfold, hg, ihframe c.index hnd1, nodeAt_setNode_self _ _ _ hlen]
        rfl
      | succ k =>
        have hk' : k < t.length := by simpa using hk
        have hg : (c :: t).get ⟨k + 1, hk⟩ = t.get ⟨k, hk'⟩ := rfl
        have hmem : t.get ⟨k, hk'⟩ ∈ t := t.get_mem k hk'
        rw [hfold, hg, ihchar k hk', hagree _ hmem]
        congr 1
        rw [accFold_congr A (fun d hd => hagree d (List.mem_of_mem_take hd))]
        have ht : (c :: t).take (k + 1) = c :: t.take k := rfl
        rw [ht]
        rfl
    · intro i hi
      have hi1 : i ≠ c.index ∧ i ∉ t.map NodeId.index := by
        constructor
        · intro he; exact hi (by rw [he]; exact List.mem_cons_self _ _)
        · intro hm; exact hi (List.mem_cons_of_mem _ hm)
      rw [hfold, ihframe i hi1.2, nodeAt_setNode_ne _ _ _ _ (fun he => hi1.1 he.symm)]
    · rw [hfold, ihacc, accFold_congr A hagree]
      rfl

theorem foldl_pair_unit (step : System → NodeId → System) (l : List NodeId) (s : System) :
    (l.foldl (fun (p : Unit × System) c => ((), step p.2 c)) ((), s)).2 =
      l.foldl step s := by
  induction l generalizing s with
  | nil => rfl
  | cons c t ih => simp only [List.foldl_cons]; exact ih _

theorem foldl_char' (step : System → NodeId → System) (W : Node → Node)
    (hstep : ∀ s c, step s c =
      match get_node s c with
      | none => s
      | some n => setNode s c.index (W n))
    (hW : ∀ n, (W n).shape = n.shape) (l : List NodeId) (s : System)
    (hval : ∀ c ∈ l, is_valid s c = true) (hnodup : (l.map NodeId.index).Nodup) :
    (∀ c ∈ l, nodeAt (l.foldl step s) c.index = W (nodeAt s c.index)) ∧
    (∀ i, i ∉ l.map NodeId.index → nodeAt (l.foldl step s) i = nodeAt s i) := by
  have hstep' : ∀ (p : Unit × System) c, (fun (p : Unit × System) c => ((), step p.2 c)) p c =
      match get_node p.2 c with
      | none => p
      | some n => ((), setNode p.2 c.index (W n)) := by
    intro p c
    show ((), step p.2 c) = _
    rw [hstep]
    cases get_node p.2 c <;> rfl
  obtain ⟨hchar, hframe, -⟩ :=
    foldl_char (fun (p : Unit × System) c => ((), step p.2 c))
      (fun _ n => W n) (fun _ _ => ()) hstep' (fun _ n => hW n) l () s hval hnodup
  constructor
  · intro c hc
    obtain ⟨⟨k, hk⟩, rfl⟩ := List.get_of_mem hc
    have := hchar k hk
    rwa [foldl_pair_unit] at this
  · intro i hi
    have := hframe i hi
    rwa [foldl_pair_unit] at this

/-! ### Step-function forms of the loop bodies -/

theorem box_child_eq (node : Node) (data : BoxData) (leftover total_stretch spacing : ℚ)
    (p : ℚ × System) (c : NodeId) :
    box_child node data leftover total_stretch spacing p c =
      match get_node p.2 c with
      | none => p
      | some n => (box_advance data leftover total_stretch spacing p.1 n,
                   setNode p.2 c.index (box_write node data leftover total_stretch p.1 n)) := by
  unfold box_child box_advance
  cases get_node p.2 c <;> rfl

theorem flow_child_eq (node : Node) (data : FlowData)
    (p : (float2 × ℚ) × System) (c : NodeId) :
    flow_child node data p c =
      match get_node p.2 c with
      | none => p
      | some n => (flow_advance node data p.1 n,
                   setNode p.2 c.index (flow_write node data p.1.1 p.1.2 n)) := by
  unfold flow_child flow_advance
  cases get_node p.2 c
  · rfl
  · cases data.direction <;> rfl

theorem generic_child_eq (node : Node) (s : System) (c : NodeId) :
    generic_child node s c =
      match get_node s c with
      | none => s
      | some n => setNode s c.index (generic_write node n) := rfl

theorem center_child_eq (node : Node) (s : System) (c : NodeId) :
    center_child node s c =
      match get_node s c with
      | none => s
      | some n => setNode s c.index (center_write node n) := rfl

theorem margin_child_eq (node : Node) (io isz : float2) (s : System) (c : NodeId) :
    margin_child node io isz s c =
      match get_node s c with
      | none => s
      | some n => setNode s c.index (margin_write node io isz n) := rfl

/-! ### Cross-axis behaviour of Box and Flow -/

theorem box_size_y_of_horizontal (data : BoxData) (leftover total_stretch : ℚ) (c : Node)
    (h : data.direction = Direction.Horizontal) :
    (box_size data leftover total_stretch c).y = c.minimum_size.y := by
  unfold box_size
  rw [h]
  dsimp only
  split_ifs <;> rfl

theorem box_size_x_of_vertical (data : BoxData) (leftover total_stretch : ℚ) (c : Node)
    (h : data.direction = Direction.Vertical) :
    (box_size data leftover total_stretch c).x = c.minimum_size.x := by
  unfold box_size
  rw [h]
  dsimp only
  split_ifs <;> rfl

theorem box_write_y_of_horizontal (node : Node) (data : BoxData)
    (leftover total_stretch cursor : ℚ) (c : Node)
    (h : data.direction = Direction.Horizontal) :
    (box_write node data leftover total_stretch cursor c).bounds.size.y =
      max ((resolve_anchors c node).bounds.size.y) c.minimum_size.y := by
  unfold box_write
  rw [h]
  dsimp only
  rw [box_size_y_of_horizontal data leftover total_stretch c h]

theorem box_write_x_of_vertical (node : Node) (data : BoxData)
    (leftover total_stretch cursor : ℚ) (c : Node)
    (h : data.direction = Direction.Vertical) :
    (box_write node data leftover total_stretch cursor c).bounds.size.x =
      max ((resolve_anchors c node).bounds.size.x) c.minimum_size.x := by
  unfold box_write
  rw [h]
  dsimp only
  rw [box_size_x_of_vertical data leftover total_stretch c h]

theorem flow_write_bounds_size (node : Node) (data : FlowData) (off : float2)
    (cross_line : ℚ) (c : Node) :
    (flow_write node data off cross_line c).bounds.size = flow_size node data c := rfl

theorem box_fold_cross (s : System) (node : Node) (data : BoxData)
    (leftover total_stretch spacing cursor : ℚ)
    (hval : ∀ c ∈ node.children, is_valid s c = true)
    (hnodup : (node.children.map NodeId.index).Nodup)
    (c : NodeId) (hc : c ∈ node.children) :
    ∃ a : ℚ,
      nodeAt ((node.children.foldl (box_child node data leftover total_stretch spacing)
        (cursor, s)).2) c.index =
        box_write node data leftover total_stretch a (nodeAt s c.index) := by
  obtain ⟨⟨k, hk⟩, rfl⟩ := List.get_of_mem hc
  obtain ⟨hchar, -, -⟩ :=
    foldl_char (box_child node data leftover total_stretch spacing)
      (box_write node data leftover total_stretch)
      (box_advance data leftover total_stretch spacing)
      (box_child_eq node data leftover total_stretch spacing)
      (fun a n => box_write_shape node data leftover total_stretch a n)
      node.children cursor s hval hnodup
  exact ⟨_, hchar k hk⟩

theorem flow_fold_size (s : System) (node : Node) (data : FlowData)
    (oc : float2 × ℚ)
    (hval : ∀ c ∈ node.children, is_valid s c = true)
    (hnodup : (node.children.map NodeId.index).Nodup)
    (c : NodeId) (hc : c ∈ node.children) :
    (nodeAt ((node.children.foldl (flow_child node data) (oc, s)).2) c.index).bounds.size =
      flow_size node data (nodeAt s c.index) := by
  obtain ⟨⟨k, hk⟩, rfl⟩ := List.get_of_mem hc
  obtain ⟨hchar, -, -⟩ :=
    foldl_char (flow_child node data)
      (fun (p : float2 × ℚ) n => flow_write node data p.1 p.2 n)
      (flow_advance node data)
      (fun p c => flow_child_eq node data p c)
      (fun p n => flow_write_shape node data p.1 p.2 n)
      node.children oc s hval hnodup
  rw [hchar k hk, flow_write_bounds_size]

/-! ### Nonnegativity of resolved sizes (under nonnegative inputs) -/

theorem sizes_nonneg_setNode {s : System} {i : Nat} {n : Node}
    (hs : sizes_nonneg s) (hx : 0 ≤ n.bounds.size.x) (hy : 0 ≤ n.bounds.size.y) :
    sizes_nonneg (setNode s i n) := by
  intro j
  by_cases hij : i = j
  · subst hij
    by_cases hr : i < s.nodes.length
    · rw [nodeAt_setNode_self _ _ _ hr]; exact ⟨hx, hy⟩
    · rw [setNode_oob _ _ _ (le_of_not_lt hr)]; exact hs i
  · rw [nodeAt_setNode_ne _ _ _ _ hij]; exact hs j

theorem resolve_anchors_min (c p : Node) :
    (resolve_anchors c p).minimum_size = c.minimum_size :=
  (proj_of_shape_eq (resolve_anchors_shape c p)).2.2.1

theorem generic_write_size_nonneg (node c : Node)
    (hmx : 0 ≤ c.minimum_size.x) (hmy : 0 ≤ c.minimum_size.y) :
    0 ≤ (generic_write node c).bounds.size.x ∧
    0 ≤ (generic_write node c).bounds.size.y := by
  unfold generic_write
  dsimp only
  rw [resolve_anchors_min]
  split_ifs <;>
    exact ⟨by first
            | exact le_max_of_le_right hmx
            | exact le_max_of_le_left (le_max_of_le_right hmx),
          by first
            | exact le_max_of_le_right hmy
            | exact le_max_of_le_left (le_max_of_le_right hmy)⟩

theorem center_write_size_nonneg (node c : Node)
    (hmx : 0 ≤ c.minimum_size.x) (hmy : 0 ≤ c.minimum_size.y)
    (hnx : 0 ≤ node.bounds.size.x) (hny : 0 ≤ node.bounds.size.y) :
    0 ≤ (center_write node c).bounds.size.x ∧
    0 ≤ (center_write node c).bounds.size.y := by
  unfold center_write
  dsimp only
  rw [resolve_anchors_min]
  split_ifs <;> exact ⟨by assumption, by assumption⟩

theorem box_size_nonneg (data : BoxData) (leftover total_stretch : ℚ) (c : Node)
    (hmx : 0 ≤ c.minimum_size.x) (hmy : 0 ≤ c.minimum_size.y)
    (hlo : 0 ≤ leftover) (hst : 0 ≤ axis_main data.direction c.stretch) :
    0 ≤ (box_size data leftover total_stretch c).x ∧
    0 ≤ (box_size data leftover total_stretch c).y := by
  obtain ⟨dir, al⟩ := data
  unfold box_size
  dsimp only at hst ⊢
  split_ifs with h
  · cases dir <;> dsimp only at hst ⊢ <;>
      exact ⟨by first
              | assumption
              | exact add_nonneg hmx (mul_nonneg hlo (div_nonneg hst h.2.le)),
            by first
              | assumption
              | exact add_nonneg hmy (mul_nonneg hlo (div_nonneg hst h.2.le))⟩
  · exact ⟨hmx, hmy⟩

theorem box_write_size_nonneg (node : Node) (data : BoxData)
    (leftover total_stretch cursor : ℚ) (c : Node)
    (hmx : 0 ≤ c.minimum_size.x) (hmy : 0 ≤ c.minimum_size.y)
    (hlo : 0 ≤ leftover) (hst : 0 ≤ axis_main data.direction c.stretch) :
    0 ≤ (box_write node data leftover total_stretch cursor c).bounds.size.x ∧
    0 ≤ (box_write node data leftover total_stretch cursor c).bounds.size.y := by
  have hb := box_size_nonneg data leftover total_stretch c hmx hmy hlo hst
  obtain ⟨dir, al⟩ := data
  unfold box_write
  cases dir <;> dsimp only at hb ⊢ <;>
    exact ⟨by first | exact hb.1 | exact le_max_of_le_right hb.1,
           by first | exact hb.2 | exact le_max_of_le_right hb.2⟩

theorem flow_size_nonneg (node : Node) (data : FlowData) (c : Node)
    (hmx : 0 ≤ c.minimum_size.x) (hmy : 0 ≤ c.minimum_size.y)
    (hnx : 0 ≤ node.bounds.size.x) (hny : 0 ≤ node.bounds.size.y) :
    0 ≤ (flow_size node data c).x ∧ 0 ≤ (flow_size node data c).y := by
  unfold flow_size
  cases data.direction <;> dsimp only <;> split_ifs <;>
    exact ⟨by assumption, by assumption⟩

theorem flow_write_size_nonneg (node : Node) (data : FlowData) (off : float2)
    (cross_line : ℚ) (c : Node)
    (hmx : 0 ≤ c.minimum_size.x) (hmy : 0 ≤ c.minimum_size.y)
    (hnx : 0 ≤ node.bounds.size.x) (hny : 0 ≤ node.bounds.size.y) :
    0 ≤ (flow_write node data off cross_line c).bounds.size.x ∧
    0 ≤ (flow_write node data off cross_line c).bounds.size.y := by
  have := flow_size_nonneg node data c hmx hmy hnx hny
  unfold flow_write
  dsimp only
  exact this

theorem margin_write_size_nonneg (node : Node) (io isz : float2) (c : Node)
    (hmx : 0 ≤ c.minimum_size.x) (hmy : 0 ≤ c.minimum_size.y) :
    0 ≤ (margin_write node io isz c).bounds.size.x ∧
    0 ≤ (margin_write node io isz c).bounds.size.y := by
  unfold margin_write
  dsimp only
  rw [resolve_anchors_min]
  split_ifs <;>
    exact ⟨by first
            | exact le_max_of_le_right hmx
            | exact le_max_of_le_left (le_max_of_le_right hmx),
          by first
            | exact le_max_of_le_right hmy
            | exact le_max_of_le_left (le_max_of_le_right hmy)⟩

theorem foldl_preserve {α : Type} (f : α × System → NodeId → α × System)
    (P : System → Prop) (hf : ∀ p c, P p.2 → P ((f p c).2)) (l : List NodeId) :
    ∀ (p : α × System), P p.2 → P ((l.foldl f p).2) := by
  induction l with
  | nil => intro p hp; exact hp
  | cons c t ih => intro p hp; exact ih _ (hf p c hp)

theorem foldl_preserve' (f : System → NodeId → System)
    (P : System → Prop) (hf : ∀ s c, P s → P (f s c)) (l : List NodeId) :
    ∀ (s : System), P s → P (l.foldl f s) := by
  induction l with
  | nil => intro s hp; exact hp
  | cons c t ih => intro s hp; exact ih _ (hf s c hp)

theorem generic_child_nonneg (node : Node) (s : System) (cid : NodeId)
    (hP : nonneg_inv s) : nonneg_inv (generic_child node s cid) := by
  unfold generic_child
  cases hg : get_node s cid with
  | none => exact hP
  | some child =>
    obtain ⟨-, h⟩ := get_node_some hg
    subst h
    have hw := generic_write_size_nonneg node (nodeAt s cid.index)
      (hP.2 cid.index).1 (hP.2 cid.index).2.1
    exact ⟨sizes_nonneg_setNode hP.1 hw.1 hw.2,
           inputs_nonneg_structEq (structEq_setNode _ _ _ (generic_write_shape ..)) hP.2⟩

theorem center_child_nonneg (node : Node)
    (hnx : 0 ≤ node.bounds.size.x) (hny : 0 ≤ node.bounds.size.y)
    (s : System) (cid : NodeId)
    (hP : nonneg_inv s) : nonneg_inv (center_child node s cid) := by
  unfold center_child
  cases hg : get_node s cid with
  | none => exact hP
  | some child =>
    obtain ⟨-, h⟩ := get_node_some hg
    subst h
    have hw := center_write_size_nonneg node (nodeAt s cid.index)
      (hP.2 cid.index).1 (hP.2 cid.index).2.1 hnx hny
    exact ⟨sizes_nonneg_setNode hP.1 hw.1 hw.2,
           inputs_nonneg_structEq (structEq_setNode _ _ _ (center_write_shape ..)) hP.2⟩

theorem box_child_nonneg (node : Node) (data : BoxData)
    (leftover total_stretch spacing : ℚ) (hlo : 0 ≤ leftover)
    (p : ℚ × System) (cid : NodeId) (hP : nonneg_inv p.2) :
    nonneg_inv ((box_child node data leftover total_stretch spacing p cid).2) := by
  unfold box_child
  cases hg : get_node p.2 cid with
  | none => exact hP
  | some child =>
    obtain ⟨-, h⟩ := get_node_some hg
    subst h
    have hst : 0 ≤ axis_main data.direction (nodeAt p.2 cid.index).stretch := by
      cases data.direction
      · exact (hP.2 cid.index).2.2.1
      · exact (hP.2 cid.index).2.2.2
    have hw := box_write_size_nonneg node data leftover total_stretch p.1
      (nodeAt p.2 cid.index) (hP.2 cid.index).1 (hP.2 cid.index).2.1 hlo hst
    exact ⟨sizes_nonneg_setNode hP.1 hw.1 hw.2,
           inputs_nonneg_structEq (structEq_setNode _ _ _ (box_write_shape ..)) hP.2⟩

theorem flow_child_nonneg (node : Node) (data : FlowData)
    (hnx : 0 ≤ node.bounds.size.x) (hny : 0 ≤ node.bounds.size.y)
    (p : (float2 × ℚ) × System) (cid : NodeId) (hP : nonneg_inv p.2) :
    nonneg_inv ((flow_child node data p cid).2) := by
  unfold flow_child
  cases hg : get_node p.2 cid with
  | none => exact hP
  | some child =>
    obtain ⟨-, h⟩ := get_node_some hg
    subst h
    have hw := flow_write_size_nonneg node data p.1.1 p.1.2 (nodeAt p.2 cid.index)
      (hP.2 cid.index).1 (hP.2 cid.index).2.1 hnx hny
    cases data.direction <;>
      exact ⟨sizes_nonneg_setNode hP.1 hw.1 hw.2,
             inputs_nonneg_structEq (structEq_setNode _ _ _ (flow_write_shape ..)) hP.2⟩

theorem margin_child_nonneg (node : Node) (io isz : float2) (s : System) (cid : NodeId)
    (hP : nonneg_inv s) : nonneg_inv (margin_child node io isz s cid) := by
  unfold margin_child
  cases hg : get_node s cid with
  | none => exact hP
  | some child =>
    obtain ⟨-, h⟩ := get_node_some hg
    subst h
    have hw := margin_write_size_nonneg node io isz (nodeAt s cid.index)
      (hP.2 cid.index).1 (hP.2 cid.index).2.1
    exact ⟨sizes_nonneg_setNode hP.1 hw.1 hw.2,
           inputs_nonneg_structEq (structEq_setNode _ _ _ (margin_write_shape ..)) hP.2⟩

theorem layout_step_nonneg (s : System) (node : Node)
    (hnx : 0 ≤ node.bounds.size.x) (hny : 0 ≤ node.bounds.size.y)
    (hP : nonneg_inv s) : nonneg_inv (layout_step s node) := by
  cases htype : node.type <;> simp only [layout_step, htype]
  · exact foldl_preserve' _ nonneg_inv (generic_child_nonneg node) _ _ hP
  · unfold layout_center
    split
    · exact hP
    · exact foldl_preserve' _ nonneg_inv (center_child_nonneg node hnx hny) _ _ hP
  · unfold layout_box
    split
    · exact hP
    · exact foldl_preserve _ nonneg_inv
        (box_child_nonneg node _ _ _ _ (le_max_left 0 _)) _ _ hP
  · unfold layout_flow
    split
    · exact hP
    · exact foldl_preserve _ nonneg_inv (flow_child_nonneg node _ hnx hny) _ _ hP
  · unfold layout_margin
    split
    · exact hP
    · exact foldl_preserve' _ nonneg_inv (margin_child_nonneg node _ _) _ _ hP

theorem compute_layout_nonneg (fuel : Nat) :
    ∀ (s : System) (id : NodeId), nonneg_inv s → nonneg_inv (compute_layout fuel s id) := by
  induction fuel with
  | zero => intro s id hP; exact hP
  | succ f ih =>
    intro s id hP
    unfold compute_layout
    cases hg : get_node s id with
    | none => exact hP
    | some node =>
      obtain ⟨-, h⟩ := get_node_some hg
      subst h
      have hstep := layout_step_nonneg s (nodeAt s id.index)
        (hP.1 id.index).1 (hP.1 id.index).2 hP
      exact foldl_preserve' _ nonneg_inv (fun s' c hp => ih s' c hp) _ _ hstep

/-! ### Anchor identity: the skip variant coincides with the engine -/

theorem resolve_anchors_zero (c p : Node) (ha : c.anchors = ⟨0, 0, 0, 0⟩)
    (ho : c.offsets = ⟨0, 0, 0, 0⟩) : resolve_anchors c p = c := by
  unfold resolve_anchors
  simp [ha, ho]

theorem resolve_anchors_skip_eq : resolve_anchors_skip = resolve_anchors := by
  funext c p
  unfold resolve_anchors_skip
  split_ifs with h
  · exact (resolve_anchors_zero c p h.1 h.2).symm
  · rfl

theorem generic_write_skip_eq : generic_write_skip = generic_write := by
  unfold generic_write_skip generic_write
  rw [resolve_anchors_skip_eq]

theorem center_write_skip_eq : center_write_skip = center_write := by
  unfold center_write_skip center_write
  rw [resolve_anchors_skip_eq]

theorem box_write_skip_eq : box_write_skip = box_write := by
  unfold box_write_skip box_write
  rw [resolve_anchors_skip_eq]

theorem flow_write_skip_eq : flow_write_skip = flow_write := by
  unfold flow_write_skip flow_write
  rw [resolve_anchors_skip_eq]

theorem margin_write_skip_eq : margin_write_skip = margin_write := by
  unfold margin_write_skip margin_write
  rw [resolve_anchors_skip_eq]

theorem generic_child_skip_eq : generic_child_skip = generic_child := by
  unfold generic_child_skip generic_child
  rw [generic_write_skip_eq]

theorem center_child_skip_eq : center_child_skip = center_child := by
  unfold center_child_skip center_child
  rw [center_write_skip_eq]

theorem box_child_skip_eq : box_child_skip = box_child := by
  unfold box_child_skip box_child
  rw [box_write_skip_eq]

theorem flow_child_skip_eq : flow_child_skip = flow_child := by
  unfold flow_child_skip flow_child
  rw [flow_write_skip_eq]

theorem margin_child_skip_eq : margin_child_skip = margin_child := by
  unfold margin_child_skip margin_child
  rw [margin_write_skip_eq]

theorem layout_generic_skip_eq : layout_generic_skip = layout_generic := by
  unfold layout_generic_skip layout_generic
  rw [generic_child_skip_eq]

theorem layout_center_skip_eq : layout_center_skip = layout_center := by
  unfold layout_center_skip layout_center
  rw [center_child_skip_eq]

theorem layout_box_skip_eq : layout_box_skip = layout_box := by
  unfold layout_box_skip layout_box
  rw [box_child_skip_eq]

theorem layout_flow_skip_eq : layout_flow_skip = layout_flow := by
  unfold layout_flow_skip layout_flow
  rw [flow_child_skip_eq]

theorem layout_margin_skip_eq : layout_margin_skip = layout_margin := by
  unfold layout_margin_skip layout_margin
  rw [margin_child_skip_eq]

theorem layout_step_skip_eq : layout_step_skip = layout_step := by
  unfold layout_step_skip layout_step
  rw [layout_generic_skip_eq, layout_center_skip_eq, layout_box_skip_eq,
    layout_flow_skip_eq, layout_margin_skip_eq]

theorem compute_layout_skipzero_eq (fuel : Nat) :
    compute_layout_skipzero fuel = compute_layout fuel := by
  induction fuel with
  | zero => rfl
  | succ f ih =>
    funext s id
    unfold compute_layout_skipzero compute_layout
    rw [layout_step_skip_eq, ih]

/-! ### Generation monotonicity of the arena operations -/

theorem genLe_refl (s : System) : genLe s s := ⟨le_refl _, fun _ => le_refl _⟩

theorem genLe_trans {s1 s2 s3 : System} (h : genLe s1 s2) (h' : genLe s2 s3) :
    genLe s1 s3 :=
  ⟨le_trans h.1 h'.1, fun i => le_trans (h.2 i) (h'.2 i)⟩

theorem genLe_of_nodes_eq {s s' : System} (h : s'.nodes = s.nodes) : genLe s s' :=
  ⟨by rw [h], fun i => by unfold nodeAt; rw [h]⟩

theorem genLe_free_list_mod (s : System) (fl : List Nat) :
    genLe s { s with free_list := fl } := genLe_of_nodes_eq rfl

theorem genLe_setNode {s : System} {i : Nat} {n : Node}
    (h : (nodeAt s i).generation ≤ n.generation) : genLe s (setNode s i n) := by
  refine ⟨by rw [length_setNode], fun j => ?_⟩
  by_cases hij : i = j
  · subst hij
    by_cases hr : i < s.nodes.length
    · rw [nodeAt_setNode_self _ _ _ hr]; exact h
    · rw [setNode_oob _ _ _ (le_of_not_lt hr)]
  · rw [nodeAt_setNode_ne _ _ _ _ hij]

theorem genLe_append (s : System) :
    genLe s { s with nodes := s.nodes ++ [defaultNode] } := by
  refine ⟨by simp, fun i => ?_⟩
  unfold nodeAt
  dsimp only
  by_cases h : i < s.nodes.length
  · rw [List.getD_eq_getElem?_getD, List.getD_eq_getElem?_getD, List.getElem?_append_left h]
  · rw [List.getD_eq_getElem?_getD s.nodes, List.getElem?_eq_none (le_of_not_lt h)]
    exact Nat.zero_le _

theorem foldl_genLe (f : System → NodeId → System) (hf : ∀ s c, genLe s (f s c))
    (l : List NodeId) : ∀ s : System, genLe s (l.foldl f s) := by
  induction l with
  | nil => intro s; exact genLe_refl s
  | cons c t ih => intro s; exact genLe_trans (hf s c) (ih (f s c))

theorem allocate_node_genLe (s : System) : genLe s (allocate_node s).1 := by
  unfold allocate_node
  cases hfl : s.free_list.getLast? with
  | none => exact genLe_append s
  | some idx =>
    dsimp only
    exact genLe_trans
      (genLe_of_nodes_eq (rfl :
        ({ s with free_list := s.free_list.dropLast } : System).nodes = s.nodes))
      (genLe_setNode (le_refl _))

theorem allocate_node_gen_eq (s : System) :
    (nodeAt (allocate_node s).1 (allocate_node s).2.index).generation =
      (allocate_node s).2.generation := by
  unfold allocate_node
  cases hfl : s.free_list.getLast? with
  | none =>
    dsimp only
    unfold nodeAt
    dsimp only
    rw [List.getD_eq_getElem?_getD, List.getElem?_append_right (le_refl _)]
    simp
    rfl
  | some idx =>
    dsimp only
    by_cases hr : idx < s.nodes.length
    · rw [nodeAt_setNode_self { s with free_list := s.free_list.dropLast } idx _ hr]
    · rw [setNode_oob { s with free_list := s.free_list.dropLast } idx _ (le_of_not_lt hr)]

theorem register_node_genLe (s : System) (id p : NodeId) (ty : NodeType) (ci : Nat)
    (h : (nodeAt s id.index).generation ≤ id.generation) :
    genLe s (register_node s id p ty ci) := by
  unfold register_node
  dsimp only
  split_ifs
  · refine genLe_trans ?_ (genLe_setNode (le_refl _))
    exact genLe_setNode h
  · exact genLe_setNode h
theorem add_generic_genLe (s : System) (p : NodeId) : genLe s (add_generic s p).1 := by
  unfold add_generic
  split_ifs with hinv
  · exact genLe_refl s
  · dsimp only
    refine genLe_trans (allocate_node_genLe s) (register_node_genLe _ _ p _ _ ?_)
    exact le_of_eq (allocate_node_gen_eq s)

theorem add_center_genLe (s : System) (p : NodeId) : genLe s (add_center s p).1 := by
  unfold add_center
  split_ifs with hinv
  · exact genLe_refl s
  · dsimp only
    refine genLe_trans (allocate_node_genLe s) (register_node_genLe _ _ p _ _ ?_)
    exact le_of_eq (allocate_node_gen_eq s)

theorem add_box_genLe (s : System) (p : NodeId) (d : BoxData) :
    genLe s (add_box s p d).1 := by
  unfold add_box
  split_ifs with hinv
  · exact genLe_refl s
  · dsimp only
    cases hfb : s.components.free_boxes.getLast? with
    | some idx =>
      dsimp only
      refine genLe_trans ?_ (register_node_genLe _ _ p _ _ ?_)
      · refine genLe_trans ?_ (allocate_node_genLe _)
        exact genLe_of_nodes_eq rfl
      · exact le_of_eq (allocate_node_gen_eq _)
    | none =>
      dsimp only
      refine genLe_trans ?_ (register_node_genLe _ _ p _ _ ?_)
      · refine genLe_trans ?_ (allocate_node_genLe _)
        exact genLe_of_nodes_eq rfl
      · exact le_of_eq (allocate_node_gen_eq _)

theorem add_flow_genLe (s : System) (p : NodeId) (d : FlowData) :
    genLe s (add_flow s p d).1 := by
  unfold add_flow
  split_ifs with hinv
  · exact genLe_refl s
  · dsimp only
    cases hfb : s.components.free_flows.getLast? with
    | some idx =>
      dsimp only
      refine genLe_trans ?_ (register_node_genLe _ _ p _ _ ?_)
      · refine genLe_trans ?_ (allocate_node_genLe _)
        exact genLe_of_nodes_eq rfl
      · exact le_of_eq (allocate_node_gen_eq _)
    | none =>
      dsimp only
      refine genLe_trans ?_ (register_node_genLe _ _ p _ _ ?_)
      · refine genLe_trans ?_ (allocate_node_genLe _)
        exact genLe_of_nodes_eq rfl
      · exact le_of_eq (allocate_node_gen_eq _)

theorem add_margin_genLe (s : System) (p : NodeId) (d : MarginData) :
    genLe s (add_margin s p d).1 := by
  unfold add_margin
  split_ifs with hinv
  · exact genLe_refl s
  · dsimp only
    cases hfb : s.components.free_margins.getLast? with
    | some idx =>
      dsimp only
      refine genLe_trans ?_ (register_node_genLe _ _ p _ _ ?_)
      · refine genLe_trans ?_ (allocate_node_genLe _)
        exact genLe_of_nodes_eq rfl
      · exact le_of_eq (allocate_node_gen_eq _)
    | none =>
      dsimp only
      refine genLe_trans ?_ (register_node_genLe _ _ p _ _ ?_)
      · refine genLe_trans ?_ (allocate_node_genLe _)
        exact genLe_of_nodes_eq rfl
      · exact le_of_eq (allocate_node_gen_eq _)

theorem free_component_genLe (s : System) (node : Node) :
    genLe s (free_component s node) := by
  unfold free_component
  cases node.type
  · exact genLe_refl s
  · exact genLe_refl s
  · exact genLe_of_nodes_eq rfl
  · exact genLe_of_nodes_eq rfl
  · exact genLe_of_nodes_eq rfl

theorem unlink_child_genLe (s : System) (parent x : NodeId) :
    genLe s (unlink_child s parent x) := by
  unfold unlink_child
  split_ifs
  · exact genLe_refl s
  · cases hg : get_node s parent with
    | none => exact genLe_refl s
    | some p =>
      refine genLe_setNode ?_
      rw [← (get_node_some hg).2]

theorem kill_slot_genLe (s : System) (i : Nat) : genLe s (kill_slot s i) :=
  genLe_setNode (Nat.le_succ _)

theorem delete_node_genLe (fuel : Nat) :
    ∀ (s : System) (id : NodeId), genLe s (delete_node fuel s id).1 := by
  induction fuel with
  | zero => intro s id; exact genLe_refl s
  | succ f ih =>
    intro s id
    unfold delete_node
    split_ifs with hv
    · exact genLe_refl s
    · dsimp only
      have hfold := foldl_genLe (fun s'' c => (delete_node f s'' c).1)
        (fun s'' c => ih s'' c) (nodeAt s id.index).children s
      generalize hG : List.foldl (fun acc c => (delete_node f acc c).1) s
        (nodeAt s id.index).children = s1
      rw [show ((nodeAt s id.index).children.foldl
        (fun s'' c => (delete_node f s'' c).1) s) =
        List.foldl (fun acc c => (delete_node f acc c).1) s
          (nodeAt s id.index).children from rfl, hG] at hfold
      refine genLe_trans hfold ?_
      refine genLe_trans ?_
        (genLe_free_list_mod (kill_slot (unlink_child (free_component s1 (nodeAt s1 id.index))
          (nodeAt (free_component s1 (nodeAt s1 id.index)) id.index).parent id) id.index) _)
      refine genLe_trans ?_ (kill_slot_genLe _ _)
      refine genLe_trans ?_ (unlink_child_genLe _ _ _)
      exact free_component_genLe _ _

theorem reparent_node_genLe (fuel : Nat) (s : System) (id np : NodeId) :
    genLe s (reparent_node fuel s id np).1 := by
  unfold reparent_node
  split_ifs with h1 h2 h3 h4 h5
  · exact genLe_refl s
  · exact genLe_refl s
  · exact genLe_refl s
  · exact genLe_refl s
  · dsimp only
    refine genLe_trans ?_ (genLe_setNode (le_refl _))
    refine genLe_trans ?_ (genLe_setNode (le_refl _))
    exact unlink_child_genLe _ _ _
  · dsimp only
    refine genLe_trans ?_ (genLe_setNode (le_refl _))
    exact unlink_child_genLe _ _ _

theorem applyOp_genLe (s : System) (op : Op) : genLe s (applyOp s op) := by
  cases op with
  | addGeneric p => exact add_generic_genLe s p
  | addCenter p => exact add_center_genLe s p
  | addBox p d => exact add_box_genLe s p d
  | addFlow p d => exact add_flow_genLe s p d
  | addMargin p d => exact add_margin_genLe s p d
  | del fuel id => exact delete_node_genLe fuel s id
  | reparent fuel id np => exact reparent_node_genLe fuel s id np

theorem stale_of_genLe {s s' : System} {n : NodeId} (h : genLe s s') (hs : stale s n) :
    stale s' n :=
  ⟨lt_of_lt_of_le hs.1 h.1, lt_of_lt_of_le hs.2 (h.2 n.index)⟩

theorem runOps_stale {s : System} {n : NodeId} (hs : stale s n) (ops : List Op) :
    stale (runOps s ops) n := by
  induction ops generalizing s with
  | nil => exact hs
  | cons op t ih => exact ih (stale_of_genLe (applyOp_genLe s op) hs)

theorem valid_gen_eq {s : System} {n : NodeId} (h : is_valid s n = true) :
    (nodeAt s n.index).generation = n.generation := by
  unfold is_valid at h
  split_ifs at h
  simp only [Bool.and_eq_true, beq_iff_eq] at h
  exact h.2

theorem stale_not_valid {s : System} {n : NodeId} (hs : stale s n) :
    is_valid s n = false := by
  cases hv : is_valid s n
  · rfl
  · have := hs.2
    rw [valid_gen_eq hv] at this
    exact absurd this (lt_irrefl _)

theorem stale_get_none {s : System} {n : NodeId} (hs : stale s n) :
    get_node s n = none := by
  unfold get_node
  rw [stale_not_valid hs]
  simp

theorem kill_slot_stale {s : System} {i : Nat} {n : NodeId} (hi : i = n.index)
    (hlt : n.index < s.nodes.length)
    (hg : n.generation ≤ (nodeAt s n.index).generation) :
    stale (kill_slot s i) n := by
  subst hi
  refine ⟨by rw [kill_slot, length_setNode]; exact hlt, ?_⟩
  rw [kill_slot, nodeAt_setNode_self _ _ _ hlt]
  exact Nat.lt_succ_of_le hg

theorem delete_true_stale {fuel : Nat} {s s' : System} {n : NodeId}
    (h : delete_node fuel s n = (s', true)) : stale s' n := by
  cases fuel with
  | zero => simp [delete_node] at h
  | succ f =>
    unfold delete_node at h
    split_ifs at h with hv
    · simp at h
    · have hvt : is_valid s n = true := by simpa using hv
      dsimp only at h
      injection h with hS hB
      subst hS
      have hfold : genLe s ((nodeAt s n.index).children.foldl
          (fun acc c => (delete_node f acc c).1) s) :=
        foldl_genLe _ (fun s'' c => delete_node_genLe f s'' c) _ s
      revert hfold
      generalize (nodeAt s n.index).children.foldl
        (fun acc c => (delete_node f acc c).1) s = s1
      intro hfold
      have h3 : genLe s (unlink_child (free_component s1 (nodeAt s1 n.index))
          (nodeAt (free_component s1 (nodeAt s1 n.index)) n.index).parent n) :=
        genLe_trans hfold
          (genLe_trans (free_component_genLe s1 _) (unlink_child_genLe _ _ _))
      have hstale : stale (kill_slot (unlink_child (free_component s1 (nodeAt s1 n.index))
          (nodeAt (free_component s1 (nodeAt s1 n.index)) n.index).parent n) n.index) n :=
        kill_slot_stale rfl (lt_of_lt_of_le (valid_index_lt hvt) h3.1)
          (le_trans (le_of_eq (valid_gen_eq hvt).symm) (h3.2 n.index))
      exact ⟨hstale.1, hstale.2⟩

theorem stale_nodes_eq {s s' : System} {n : NodeId} (h : s'.nodes = s.nodes)
    (hs : stale s n) : stale s' n := by
  refine ⟨by rw [h]; exact hs.1, ?_⟩
  have : nodeAt s' n.index = nodeAt s n.index := by unfold nodeAt; rw [h]
  rw [this]
  exact hs.2

theorem allocate_created {s : System} {n : NodeId} (hs : stale s n)
    (hidx : (allocate_node s).2.index = n.index) :
    n.generation < (allocate_node s).2.generation := by
  revert hidx
  unfold allocate_node
  cases hfl : s.free_list.getLast? with
  | some idx =>
    dsimp only
    intro hidx
    subst hidx
    exact hs.2
  | none =>
    dsimp only
    intro hidx
    have h1 := hs.1
    rw [← hidx] at h1
    exact absurd h1 (lt_irrefl _)

theorem createdId_gen {s : System} {n : NodeId} (hs : stale s n) (op : Op) (h : NodeId)
    (hc : createdId s op = some h) (hnull : h.is_null = false) (hidx : h.index = n.index) :
    n.generation < h.generation := by
  cases op with
  | addGeneric p =>
    simp only [createdId, Option.some.injEq] at hc
    unfold add_generic at hc
    split_ifs at hc with hinv
    · rw [← hc] at hnull
      simp [NullNode, NodeId.is_null] at hnull
    · dsimp only at hc
      rw [← hc] at hidx ⊢
      exact allocate_created hs hidx
  | addCenter p =>
    simp only [createdId, Option.some.injEq] at hc
    unfold add_center at hc
    split_ifs at hc with hinv
    · rw [← hc] at hnull
      simp [NullNode, NodeId.is_null] at hnull
    · dsimp only at hc
      rw [← hc] at hidx ⊢
      exact allocate_created hs hidx
  | addBox p d =>
    simp only [createdId, Option.some.injEq] at hc
    unfold add_box at hc
    split_ifs at hc with hinv
    · rw [← hc] at hnull
      simp [NullNode, NodeId.is_null] at hnull
    · dsimp only at hc
      cases hfb : s.components.free_boxes.getLast? <;> rw [hfb] at hc <;>
        dsimp only at hc <;> rw [← hc] at hidx ⊢ <;>
        exact allocate_created (stale_nodes_eq rfl hs) hidx
  | addFlow p d =>
    simp only [createdId, Option.some.injEq] at hc
    unfold add_flow at hc
    split_ifs at hc with hinv
    · rw [← hc] at hnull
      simp [NullNode, NodeId.is_null] at hnull
    · dsimp only at hc
      cases hfb : s.components.free_flows.getLast? <;> rw [hfb] at hc <;>
        dsimp only at hc <;> rw [← hc] at hidx ⊢ <;>
        exact allocate_created (stale_nodes_eq rfl hs) hidx
  | addMargin p d =>
    simp only [createdId, Option.some.injEq] at hc
    unfold add_margin at hc
    split_ifs at hc with hinv
    · rw [← hc] at hnull
      simp [NullNode, NodeId.is_null] at hnull
    · dsimp only at hc
      cases hfb : s.components.free_margins.getLast? <;> rw [hfb] at hc <;>
        dsimp only at hc <;> rw [← hc] at hidx ⊢ <;>
        exact allocate_created (stale_nodes_eq rfl hs) hidx
  | del fuel id => simp [createdId] at hc
  | reparent fuel id np => simp [createdId] at hc

/-! ### Tree-skeleton lemmas (C8) -/

theorem flat_node (i : Nat) (ks : List LTree) :
    LTree.flat (.node i ks) = i :: LTree.flatList ks := by
  simp [LTree.flat]

theorem flatList_nil : LTree.flatList [] = [] := by
  simp [LTree.flatList]

theorem flatList_cons (t : LTree) (ts : List LTree) :
    LTree.flatList (t :: ts) = LTree.flat t ++ LTree.flatList ts := by
  simp [LTree.flatList]

theorem proper_node (i : Nat) (ks : List LTree) :
    LTree.proper (.node i ks) = LTree.flatList ks := rfl

theorem idx_node (i : Nat) (ks : List LTree) : LTree.idx (.node i ks) = i := rfl

theorem sizeOf_kids_lt (i : Nat) (ks : List LTree) :
    sizeOf ks < sizeOf (LTree.node i ks) := by
  simp only [LTree.node.sizeOf_spec]
  omega

theorem sizeOf_mem_lt {t : LTree} {ts : List LTree} (h : t ∈ ts) : sizeOf t < sizeOf ts :=
  List.sizeOf_lt_of_mem h

theorem sizeOf_tree_pos (t : LTree) : 1 ≤ sizeOf t := by
  cases t with
  | node i ks => simp only [LTree.node.sizeOf_spec]; omega

theorem sizeOf_forest_pos (ts : List LTree) : 1 ≤ sizeOf ts := by
  cases ts with
  | nil => simp
  | cons t ts => simp only [List.cons.sizeOf_spec]; omega

theorem idx_mem_flat (t : LTree) : t.idx ∈ t.flat := by
  cases t with
  | node i ks => rw [idx_node, flat_node]; exact List.mem_cons_self _ _

theorem proper_sub_flat {t : LTree} {x : Nat} (h : x ∈ t.proper) : x ∈ t.flat := by
  cases t with
  | node i ks => rw [flat_node]; exact List.mem_cons_of_mem _ h

theorem mem_flatList_of_mem {t : LTree} {ts : List LTree} (ht : t ∈ ts) {x : Nat}
    (hx : x ∈ t.flat) : x ∈ LTree.flatList ts := by
  induction ts with
  | nil => cases ht
  | cons u us ih =>
    rw [flatList_cons, List.mem_append]
    rcases List.mem_cons.mp ht with he | hm
    · exact Or.inl (he ▸ hx)
    · exact Or.inr (ih hm)

theorem reprB_node (s : System) (id : NodeId) (i : Nat) (ks : List LTree) :
    reprB s id (.node i ks) =
      (is_valid s id && (id.index == i) && reprKids s (nodeAt s id.index).children ks) := by
  simp [reprB]

theorem reprKids_nil_nil (s : System) : reprKids s [] [] = true := by
  simp [reprKids]

theorem reprKids_cons_cons (s : System) (c : NodeId) (cs : List NodeId) (t : LTree)
    (ts : List LTree) :
    reprKids s (c :: cs) (t :: ts) = (reprB s c t && reprKids s cs ts) := by
  simp [reprKids]

theorem reprKids_nil_cons (s : System) (t : LTree) (ts : List LTree) :
    reprKids s [] (t :: ts) = false := by
  simp [reprKids]

theorem reprKids_cons_nil (s : System) (c : NodeId) (cs : List NodeId) :
    reprKids s (c :: cs) [] = false := by
  simp [reprKids]

theorem reprB_true {s : System} {id : NodeId} {i : Nat} {ks : List LTree}
    (h : reprB s id (.node i ks) = true) :
    is_valid s id = true ∧ id.index = i ∧
      reprKids s (nodeAt s id.index).children ks = true := by
  rw [reprB_node] at h
  simp only [Bool.and_eq_true, beq_iff_eq] at h
  exact ⟨h.1.1, h.1.2, h.2⟩

theorem reprKids_cons_true {s : System} {c : NodeId} {cs : List NodeId} {t : LTree}
    {ts : List LTree} (h : reprKids s (c :: cs) (t :: ts) = true) :
    reprB s c t = true ∧ reprKids s cs ts = true := by
  rw [reprKids_cons_cons] at h
  simpa only [Bool.and_eq_true] using h

theorem repr_structEq_aux {s s2 : System} (h : structEq s s2) : ∀ n : Nat,
    (∀ t : LTree, sizeOf t ≤ n → ∀ id, reprB s id t = reprB s2 id t) ∧
    (∀ ts : List LTree, sizeOf ts ≤ n → ∀ cs, reprKids s cs ts = reprKids s2 cs ts) := by
  intro n
  induction n with
  | zero =>
    constructor
    · intro t ht; exact absurd ht (by have := sizeOf_tree_pos t; omega)
    · intro ts hts; exact absurd hts (by have := sizeOf_forest_pos ts; omega)
  | succ n ih =>
    constructor
    · intro t ht id
      cases t with
      | node i ks =>
        have hks : sizeOf ks ≤ n := by
          simp only [LTree.node.sizeOf_spec] at ht; omega
        have hch : (nodeAt s id.index).children = (nodeAt s2 id.index).children := by
          have hsh := congrArg Node.children (h.2.1 id.index)
          rwa [shape_children, shape_children] at hsh
        rw [reprB_node, reprB_node, is_valid_structEq h, hch, ih.2 ks hks]
    · intro ts hts cs
      cases ts with
      | nil =>
        cases cs with
        | nil => rfl
        | cons c cs => rw [reprKids_cons_nil, reprKids_cons_nil]
      | cons t ts =>
        have hb : sizeOf t ≤ n ∧ sizeOf ts ≤ n := by
          simp only [List.cons.sizeOf_spec] at hts
          have h1 := sizeOf_tree_pos t
          have h2 := sizeOf_forest_pos ts
          omega
        cases cs with
        | nil => rw [reprKids_nil_cons, reprKids_nil_cons]
        | cons c cs =>
          rw [reprKids_cons_cons, reprKids_cons_cons, ih.1 t hb.1, ih.2 ts hb.2]

theorem reprB_structEq {s s2 : System} (h : structEq s s2) (id : NodeId) (t : LTree) :
    reprB s id t = reprB s2 id t :=
  (repr_structEq_aux h (sizeOf t)).1 t (le_refl _) id

theorem reprKids_structEq {s s2 : System} (h : structEq s s2) (cs : List NodeId)
    (ts : List LTree) : reprKids s cs ts = reprKids s2 cs ts :=
  (repr_structEq_aux h (sizeOf ts)).2 ts (le_refl _) cs

theorem reprKids_valid {s : System} : ∀ {cs : List NodeId} {ts : List LTree},
    reprKids s cs ts = true → ∀ c ∈ cs, is_valid s c = true := by
  intro cs
  induction cs with
  | nil => intro ts h c hc; cases hc
  | cons c0 cs ih =>
    intro ts h c hc
    cases ts with
    | nil => rw [reprKids_cons_nil] at h; cases h
    | cons t ts =>
      obtain ⟨h1, h2⟩ := reprKids_cons_true h
      rcases List.mem_cons.mp hc with he | hm
      · subst he
        cases t with
        | node i ks => exact (reprB_true h1).1
      · exact ih h2 c hm

theorem reprKids_map_index {s : System} : ∀ {cs : List NodeId} {ts : List LTree},
    reprKids s cs ts = true → cs.map NodeId.index = ts.map LTree.idx := by
  intro cs
  induction cs with
  | nil =>
    intro ts h
    cases ts with
    | nil => rfl
    | cons t ts => rw [reprKids_nil_cons] at h; cases h
  | cons c cs ih =>
    intro ts h
    cases ts with
    | nil => rw [reprKids_cons_nil] at h; cases h
    | cons t ts =>
      obtain ⟨h1, h2⟩ := reprKids_cons_true h
      rw [List.map_cons, List.map_cons, ih h2]
      cases t with
      | node i ks => rw [idx_node, (reprB_true h1).2.1]

theorem nodup_flatList_parts {t : LTree} {ts : List LTree}
    (h : (LTree.flatList (t :: ts)).Nodup) :
    t.flat.Nodup ∧ (LTree.flatList ts).Nodup ∧ ∀ x ∈ t.flat, x ∉ LTree.flatList ts := by
  rw [flatList_cons] at h
  obtain ⟨h1, h2, h3⟩ := List.nodup_append.mp h
  exact ⟨h1, h2, fun x hx => h3 hx⟩

theorem mem_map_idx_flatList {ts : List LTree} {x : Nat} (h : x ∈ ts.map LTree.idx) :
    x ∈ LTree.flatList ts := by
  obtain ⟨u, hu, he⟩ := List.mem_map.mp h
  exact he ▸ mem_flatList_of_mem hu (idx_mem_flat u)

theorem nodup_map_idx : ∀ {ts : List LTree}, (LTree.flatList ts).Nodup →
    (ts.map LTree.idx).Nodup := by
  intro ts
  induction ts with
  | nil => intro h; simp
  | cons t ts ih =>
    intro h
    obtain ⟨h1, h2, h3⟩ := nodup_flatList_parts h
    rw [List.map_cons, List.nodup_cons]
    refine ⟨?_, ih h2⟩
    intro hmem
    exact h3 t.idx (idx_mem_flat t) (mem_map_idx_flatList hmem)

theorem nodup_flat_mem : ∀ {ts : List LTree}, (LTree.flatList ts).Nodup →
    ∀ {t : LTree}, t ∈ ts → t.flat.Nodup := by
  intro ts
  induction ts with
  | nil => intro h t ht; cases ht
  | cons u us ih =>
    intro h t ht
    obtain ⟨h1, h2, _⟩ := nodup_flatList_parts h
    rcases List.mem_cons.mp ht with he | hm
    · exact he ▸ h1
    · exact ih h2 hm

/-! ### Record helpers for the idempotence proof (C8) -/

theorem list_set_getD (l : List Node) (i : Nat) : l.set i (l.getD i default) = l := by
  by_cases h : i < l.length
  · apply List.ext_getElem?
    intro n
    by_cases hn : n = i
    · subst hn
      rw [List.getElem?_set_self]
      · rw [List.getD_eq_getElem?_getD, List.getElem?_eq_getElem h]
        rfl
      · exact h
    · rw [List.getElem?_set_ne (fun he => hn he.symm)]
  · exact List.set_eq_of_length_le (le_of_not_lt h)

theorem setNode_self (s : System) (i : Nat) : setNode s i (nodeAt s i) = s := by
  unfold setNode nodeAt
  rw [list_set_getD]

theorem setBounds_congr {n m : Node} (h : n.shape = m.shape) (r : Rect) :
    ({ n with bounds := r } : Node) = { m with bounds := r } := by
  cases n
  cases m
  simp only [Node.shape, Node.mk.injEq, eq_self_iff_true, true_and] at h ⊢
  exact h

theorem max_absorb1 (a b : ℚ) : max (max a b) b = max a b :=
  max_eq_left (le_max_right a b)

theorem max_absorb2 (a b c : ℚ) : max (max (max a b) c) b = max (max a b) c :=
  max_eq_left (le_trans (le_max_right a b) (le_max_left (max a b) c))

theorem max_absorb3 (a b c : ℚ) : max (max (max a b) c) c = max (max a b) c :=
  max_eq_left (le_max_right _ c)

theorem resolve_anchors_size_x (c p : Node) :
    (resolve_anchors c p).bounds.size.x =
      if p.bounds.origin.x + c.anchors.left * p.bounds.size.x + c.offsets.left <
         p.bounds.origin.x + c.anchors.right * p.bounds.size.x - c.offsets.right
      then (p.bounds.origin.x + c.anchors.right * p.bounds.size.x - c.offsets.right) -
           (p.bounds.origin.x + c.anchors.left * p.bounds.size.x + c.offsets.left)
      else c.bounds.size.x := by
  unfold resolve_anchors
  dsimp only
  split_ifs <;> rfl

theorem resolve_anchors_size_y (c p : Node) :
    (resolve_anchors c p).bounds.size.y =
      if p.bounds.origin.y + c.anchors.top * p.bounds.size.y + c.offsets.top <
         p.bounds.origin.y + c.anchors.bottom * p.bounds.size.y - c.offsets.bottom
      then (p.bounds.origin.y + c.anchors.bottom * p.bounds.size.y - c.offsets.bottom) -
           (p.bounds.origin.y + c.anchors.top * p.bounds.size.y + c.offsets.top)
      else c.bounds.size.y := by
  unfold resolve_anchors
  dsimp only
  split_ifs <;> rfl

theorem resolve_anchors_origin_x (c p : Node) :
    (resolve_anchors c p).bounds.origin.x =
      if p.bounds.origin.x + c.anchors.left * p.bounds.size.x + c.offsets.left <
         p.bounds.origin.x + c.anchors.right * p.bounds.size.x - c.offsets.right
      then p.bounds.origin.x + c.anchors.left * p.bounds.size.x + c.offsets.left
      else c.bounds.origin.x := by
  unfold resolve_anchors
  dsimp only
  split_ifs <;> rfl

theorem resolve_anchors_origin_y (c p : Node) :
    (resolve_anchors c p).bounds.origin.y =
      if p.bounds.origin.y + c.anchors.top * p.bounds.size.y + c.offsets.top <
         p.bounds.origin.y + c.anchors.bottom * p.bounds.size.y - c.offsets.bottom
      then p.bounds.origin.y + c.anchors.top * p.bounds.size.y + c.offsets.top
      else c.bounds.origin.y := by
  unfold resolve_anchors
  dsimp only
  split_ifs <;> rfl

theorem node_eq_of_shape_bounds {n m : Node} (hs : n.shape = m.shape)
    (hb : n.bounds = m.bounds) : n = m := by
  cases n
  cases m
  simp only [Node.shape, Node.mk.injEq, eq_self_iff_true, true_and] at hs
  simp only [Node.mk.injEq]
  exact ⟨hb, hs⟩

theorem box_size_congr {c d : Node} (h : c.shape = d.shape) (data : BoxData)
    (leftover total_stretch : ℚ) :
    box_size data leftover total_stretch c = box_size data leftover total_stretch d := by
  obtain ⟨-, -, hm, hs, he, -⟩ := proj_of_shape_eq h
  unfold box_size
  rw [hm, hs, he]

theorem box_advance_congr {c d : Node} (h : c.shape = d.shape) (data : BoxData)
    (leftover total_stretch spacing cursor : ℚ) :
    box_advance data leftover total_stretch spacing cursor c =
      box_advance data leftover total_stretch spacing cursor d := by
  unfold box_advance
  rw [box_size_congr h]

theorem flow_size_congr {c d : Node} (h : c.shape = d.shape) (node : Node)
    (data : FlowData) : flow_size node data c = flow_size node data d := by
  obtain ⟨-, -, hm, -, he, -⟩ := proj_of_shape_eq h
  unfold flow_size
  rw [hm, he]

theorem flow_wrap_congr {c d : Node} (h : c.shape = d.shape) (node : Node)
    (data : FlowData) (off : float2) (cross_line : ℚ) :
    flow_wrap node data off cross_line c = flow_wrap node data off cross_line d := by
  unfold flow_wrap
  rw [flow_size_congr h]

theorem flow_advance_congr {c d : Node} (h : c.shape = d.shape) (node : Node)
    (data : FlowData) (oc : float2 × ℚ) :
    flow_advance node data oc c = flow_advance node data oc d := by
  unfold flow_advance
  rw [flow_size_congr h, flow_wrap_congr h]

theorem center_write_bounds (node c : Node) :
    (center_write node c).bounds =
      ⟨node.bounds.origin +
        ⟨(node.bounds.size.x -
            (if 0 < c.expand.x then node.bounds.size.x else c.minimum_size.x)) * (1 / 2),
         (node.bounds.size.y -
            (if 0 < c.expand.y then node.bounds.size.y else c.minimum_size.y)) * (1 / 2)⟩,
       ⟨(if 0 < c.expand.x then node.bounds.size.x else c.minimum_size.x),
        (if 0 < c.expand.y then node.bounds.size.y else c.minimum_size.y)⟩⟩ := by
  have hra := resolve_anchors_shape c node
  obtain ⟨-, -, hm, -, he, -⟩ := proj_of_shape_eq hra
  unfold center_write
  dsimp only
  rw [hm, he]
  split_ifs <;> rfl

theorem center_write_congr {c d : Node} (node : Node) (h : c.shape = d.shape) :
    center_write node c = center_write node d := by
  have hra : (resolve_anchors c node).shape = (resolve_anchors d node).shape := by
    rw [resolve_anchors_shape, resolve_anchors_shape, h]
  obtain ⟨-, -, hm, -, he, -⟩ := proj_of_shape_eq h
  apply node_eq_of_shape_bounds
  · rw [center_write_shape, center_write_shape, h]
  · rw [center_write_bounds, center_write_bounds, hm, he]

theorem center_write_idem (node c : Node) :
    center_write node (center_write node c) = center_write node c :=
  center_write_congr node (center_write_shape node c)

theorem flow_write_bounds (node : Node) (data : FlowData) (off : float2) (cross_line : ℚ)
    (c : Node) :
    (flow_write node data off cross_line c).bounds =
      ⟨(flow_wrap node data off cross_line c).1, flow_size node data c⟩ := rfl

theorem flow_write_congr {c d : Node} (node : Node) (data : FlowData) (off : float2)
    (cross_line : ℚ) (h : c.shape = d.shape) :
    flow_write node data off cross_line c = flow_write node data off cross_line d := by
  apply node_eq_of_shape_bounds
  · rw [flow_write_shape, flow_write_shape, h]
  · rw [flow_write_bounds, flow_write_bounds, flow_wrap_congr h, flow_size_congr h]

theorem flow_write_idem (node : Node) (data : FlowData) (off : float2) (cross_line : ℚ)
    (c : Node) :
    flow_write node data off cross_line (flow_write node data off cross_line c) =
      flow_write node data off cross_line c :=
  flow_write_congr node data off cross_line (flow_write_shape node data off cross_line c)

theorem box_write_bounds_h (node : Node) (data : BoxData) (leftover total_stretch : ℚ)
    (cursor : ℚ) (c : Node) (hd : data.direction = Direction.Horizontal) :
    (box_write node data leftover total_stretch cursor c).bounds =
      ⟨⟨cursor, node.bounds.origin.y⟩,
       ⟨(box_size data leftover total_stretch c).x,
        max (resolve_anchors c node).bounds.size.y
          (box_size data leftover total_stretch c).y⟩⟩ := by
  simp only [box_write, hd]

theorem box_write_bounds_v (node : Node) (data : BoxData) (leftover total_stretch : ℚ)
    (cursor : ℚ) (c : Node) (hd : data.direction = Direction.Vertical) :
    (box_write node data leftover total_stretch cursor c).bounds =
      ⟨⟨node.bounds.origin.x, cursor⟩,
       ⟨max (resolve_anchors c node).bounds.size.x
          (box_size data leftover total_stretch c).x,
        (box_size data leftover total_stretch c).y⟩⟩ := by
  simp only [box_write, hd]

theorem box_write_idem (node : Node) (data : BoxData) (leftover total_stretch : ℚ)
    (cursor : ℚ) (c : Node) :
    box_write node data leftover total_stretch cursor
        (box_write node data leftover total_stretch cursor c) =
      box_write node data leftover total_stretch cursor c := by
  have hsh := box_write_shape node data leftover total_stretch cursor c
  obtain ⟨-, -, -, -, -, -, -, -, -, ha, ho⟩ := proj_of_shape_eq hsh
  apply node_eq_of_shape_bounds
  · rw [box_write_shape]
  · cases hd : data.direction with
    | Horizontal =>
      rw [box_write_bounds_h _ _ _ _ _ _ hd, box_write_bounds_h _ _ _ _ _ _ hd,
          box_size_congr hsh]
      rw [resolve_anchors_size_y _ node, resolve_anchors_size_y c node, ha, ho]
      split_ifs with hcond
      · rfl
      · rw [box_write_bounds_h _ _ _ _ _ _ hd]
        dsimp only
        rw [resolve_anchors_size_y c node, if_neg hcond, max_absorb1]
    | Vertical =>
      rw [box_write_bounds_v _ _ _ _ _ _ hd, box_write_bounds_v _ _ _ _ _ _ hd,
          box_size_congr hsh]
      rw [resolve_anchors_size_x _ node, resolve_anchors_size_x c node, ha, ho]
      split_ifs with hcond
      · rfl
      · rw [box_write_bounds_v _ _ _ _ _ _ hd]
        dsimp only
        rw [resolve_anchors_size_x c node, if_neg hcond, max_absorb1]

theorem generic_write_bounds (node c : Node) :
    (generic_write node c).bounds =
      ⟨⟨(resolve_anchors c node).bounds.origin.x, (resolve_anchors c node).bounds.origin.y⟩,
       ⟨(if 0 < c.expand.x
         then max (max (resolve_anchors c node).bounds.size.x c.minimum_size.x)
                node.bounds.size.x
         else max (resolve_anchors c node).bounds.size.x c.minimum_size.x),
        (if 0 < c.expand.y
         then max (max (resolve_anchors c node).bounds.size.y c.minimum_size.y)
                node.bounds.size.y
         else max (resolve_anchors c node).bounds.size.y c.minimum_size.y)⟩⟩ := by
  have hra := resolve_anchors_shape c node
  obtain ⟨-, -, hm, -, he, -⟩ := proj_of_shape_eq hra
  unfold generic_write
  dsimp only
  rw [hm, he]
  split_ifs <;> rfl

theorem generic_write_idem (node c : Node) :
    generic_write node (generic_write node c) = generic_write node c := by
  have hsh := generic_write_shape node c
  obtain ⟨-, -, hm, -, he, -, -, -, -, ha, ho⟩ := proj_of_shape_eq hsh
  apply node_eq_of_shape_bounds
  · rw [generic_write_shape]
  · rw [generic_write_bounds node (generic_write node c), hm, he]
    rw [resolve_anchors_size_x (generic_write node c) node,
        resolve_anchors_size_y (generic_write node c) node,
        resolve_anchors_origin_x (generic_write node c) node,
        resolve_anchors_origin_y (generic_write node c) node, ha, ho]
    rw [generic_write_bounds node c]
    dsimp only
    rw [resolve_anchors_size_x c node, resolve_anchors_size_y c node,
        resolve_anchors_origin_x c node, resolve_anchors_origin_y c node]
    split_ifs <;>
      simp only [Rect.mk.injEq, float2.mk.injEq, max_absorb1, max_absorb2, max_absorb3,
        eq_self_iff_true, true_and, and_true, and_self]

theorem margin_write_bounds (node : Node) (io isz : float2) (c : Node) :
    (margin_write node io isz c).bounds =
      ⟨⟨(resolve_anchors c { node with bounds := ⟨io, isz⟩ }).bounds.origin.x,
        (resolve_anchors c { node with bounds := ⟨io, isz⟩ }).bounds.origin.y⟩,
       ⟨(if 0 < c.expand.x
         then max (max (resolve_anchors c { node with bounds := ⟨io, isz⟩ }).bounds.size.x
                    c.minimum_size.x) isz.x
         else max (resolve_anchors c { node with bounds := ⟨io, isz⟩ }).bounds.size.x
                c.minimum_size.x),
        (if 0 < c.expand.y
         then max (max (resolve_anchors c { node with bounds := ⟨io, isz⟩ }).bounds.size.y
                    c.minimum_size.y) isz.y
         else max (resolve_anchors c { node with bounds := ⟨io, isz⟩ }).bounds.size.y
                c.minimum_size.y)⟩⟩ := by
  have hra := resolve_anchors_shape c ({ node with bounds := ⟨io, isz⟩ })
  obtain ⟨-, -, hm, -, he, -⟩ := proj_of_shape_eq hra
  unfold margin_write
  dsimp only
  rw [hm, he]
  split_ifs <;> rfl

theorem margin_write_idem (node : Node) (io isz : float2) (c : Node) :
    margin_write node io isz (margin_write node io isz c) = margin_write node io isz c := by
  have hsh := margin_write_shape node io isz c
  obtain ⟨-, -, hm, -, he, -, -, -, -, ha, ho⟩ := proj_of_shape_eq hsh
  apply node_eq_of_shape_bounds
  · rw [margin_write_shape]
  · rw [margin_write_bounds node io isz (margin_write node io isz c), hm, he]
    rw [resolve_anchors_size_x (margin_write node io isz c) ({ node with bounds := ⟨io, isz⟩ }),
        resolve_anchors_size_y (margin_write node io isz c) ({ node with bounds := ⟨io, isz⟩ }),
        resolve_anchors_origin_x (margin_write node io isz c)
          ({ node with bounds := ⟨io, isz⟩ }),
        resolve_anchors_origin_y (margin_write node io isz c)
          ({ node with bounds := ⟨io, isz⟩ }), ha, ho]
    rw [margin_write_bounds node io isz c]
    dsimp only
    rw [resolve_anchors_size_x c ({ node with bounds := ⟨io, isz⟩ }),
        resolve_anchors_size_y c ({ node with bounds := ⟨io, isz⟩ }),
        resolve_anchors_origin_x c ({ node with bounds := ⟨io, isz⟩ }),
        resolve_anchors_origin_y c ({ node with bounds := ⟨io, isz⟩ })]
    dsimp only
    split_ifs <;>
      simp only [Rect.mk.injEq, float2.mk.injEq, max_absorb1, max_absorb2, max_absorb3,
        eq_self_iff_true, true_and, and_true, and_self]

theorem foldl_stable {α : Type} (step : α × System → NodeId → α × System)
    (W : α → Node → Node) (A : α → Node → α)
    (hstep : ∀ p c, step p c =
      match get_node p.2 c with
      | none => p
      | some n => (A p.1 n, setNode p.2 c.index (W p.1 n)))
    (hW : ∀ a n, (W a n).shape = n.shape)
    (hWW : ∀ a n, W a (W a n) = W a n)
    (hA : ∀ (a : α) {n m : Node}, n.shape = m.shape → A a n = A a m) :
    ∀ (l : List NodeId) (a : α) (s X : System),
      (∀ c ∈ l, is_valid X c = true) →
      (∀ k (hk : k < l.length),
        nodeAt X (l.get ⟨k, hk⟩).index =
          W (accFold A a (l.take k) s) (nodeAt s (l.get ⟨k, hk⟩).index)) →
      l.foldl step (a, X) = (accFold A a l s, X) := by
  intro l
  induction l with
  | nil => intro a s X hval hX; rfl
  | cons c t ih =>
    intro a s X hval hX
    have hc : is_valid X c = true := hval c (List.mem_cons_self c t)
    have hX0 : nodeAt X c.index = W a (nodeAt s c.index) := hX 0 (by simp)
    have hacc : A a (nodeAt X c.index) = A a (nodeAt s c.index) :=
      hA a (by rw [hX0, hW])
    have hset : setNode X c.index (W a (nodeAt X c.index)) = X := by
      rw [hX0, hWW, ← hX0, setNode_self]
    have hstep0 : step (a, X) c = (A a (nodeAt s c.index), X) := by
      rw [hstep, get_node_valid hc]
      dsimp only
      rw [hacc, hset]
    rw [List.foldl_cons, hstep0]
    exact ih (A a (nodeAt s c.index)) s X
      (fun d hd => hval d (List.mem_cons_of_mem _ hd))
      (fun k hk => hX (k + 1) (by simpa using Nat.succ_lt_succ hk))

theorem foldl_stable' (step : System → NodeId → System) (W : Node → Node)
    (hstep : ∀ s c, step s c =
      match get_node s c with
      | none => s
      | some n => setNode s c.index (W n))
    (hW : ∀ n, (W n).shape = n.shape)
    (hWW : ∀ n, W (W n) = W n)
    (l : List NodeId) (s X : System)
    (hval : ∀ c ∈ l, is_valid X c = true)
    (hX : ∀ c ∈ l, nodeAt X c.index = W (nodeAt s c.index)) :
    l.foldl step X = X := by
  have hstep' : ∀ (p : Unit × System) c, (fun (p : Unit × System) c => ((), step p.2 c)) p c =
      match get_node p.2 c with
      | none => p
      | some n => ((), setNode p.2 c.index (W n)) := by
    intro p c
    show ((), step p.2 c) = _
    rw [hstep]
    cases get_node p.2 c <;> rfl
  have h := foldl_stable (fun (p : Unit × System) c => ((), step p.2 c))
      (fun _ n => W n) (fun _ _ => ()) hstep' (fun _ n => hW n) (fun _ n => hWW n)
      (fun _ {_ _} _ => rfl) l () s X hval
      (fun k hk => hX _ (l.get_mem k hk))
  have h2 := congrArg Prod.snd h
  rwa [foldl_pair_unit] at h2

theorem layout_center_eq_fold (s : System) (node : Node) :
    layout_center s node = node.children.foldl (center_child node) s := by
  by_cases hemp : node.children.isEmpty = true
  · unfold layout_center
    rw [if_pos hemp, List.isEmpty_iff.mp hemp]
    rfl
  · unfold layout_center
    rw [if_neg hemp]

theorem layout_box_eq_fold (s : System) (node : Node) (data : BoxData) :
    layout_box s node data =
      (node.children.foldl
        (box_child node data
          (max 0 (axis_main data.direction node.bounds.size - (box_totals s node data).1))
          (box_totals s node data).2
          (match data.align with
           | Align.SpaceBetween =>
             if 1 < node.children.length
             then max 0 (axis_main data.direction node.bounds.size -
                    (box_totals s node data).1) / ((node.children.length : ℚ) - 1)
             else 0
           | _ => 0))
        (match data.align with
         | Align.Start => axis_main data.direction node.bounds.origin
         | Align.Center => axis_main data.direction node.bounds.origin +
             max 0 (axis_main data.direction node.bounds.size -
               (box_totals s node data).1) * (1 / 2)
         | Align.End => axis_main data.direction node.bounds.origin +
             max 0 (axis_main data.direction node.bounds.size - (box_totals s node data).1)
         | Align.SpaceBetween => axis_main data.direction node.bounds.origin, s)).2 := by
  by_cases hemp : node.children.isEmpty = true
  · unfold layout_box
    rw [if_pos hemp, List.isEmpty_iff.mp hemp]
    rfl
  · unfold layout_box
    rw [if_neg hemp]

theorem layout_flow_eq_fold (s : System) (node : Node) (data : FlowData) :
    layout_flow s node data =
      ((node.children.foldl (flow_child node data) ((node.bounds.origin, 0), s))).2 := by
  by_cases hemp : node.children.isEmpty = true
  · unfold layout_flow
    rw [if_pos hemp, List.isEmpty_iff.mp hemp]
    rfl
  · unfold layout_flow
    rw [if_neg hemp]

theorem layout_margin_eq_fold (s : System) (node : Node) (data : MarginData) :
    layout_margin s node data =
      node.children.foldl
        (margin_child node ⟨node.bounds.origin.x + data.left, node.bounds.origin.y + data.top⟩
          ⟨max 0 (node.bounds.size.x - data.left - data.right),
           max 0 (node.bounds.size.y - data.top - data.bottom)⟩) s := by
  by_cases hemp : node.children.isEmpty = true
  · unfold layout_margin
    rw [if_pos hemp, List.isEmpty_iff.mp hemp]
    rfl
  · unfold layout_margin
    rw [if_neg hemp]

theorem box_totals_structEq {s1 s2 : System} (h : structEq s1 s2) (node : Node)
    (data : BoxData) : box_totals s1 node data = box_totals s2 node data := by
  unfold box_totals
  apply List.foldl_ext
  intro t cid hc
  have hv := is_valid_structEq h cid
  obtain ⟨-, -, hm, hs, he, -⟩ := proj_of_shape_eq (h.2.1 cid.index)
  cases hvv : is_valid s2 cid <;> simp [get_node, hv, hvv, hm, hs, he]

theorem layout_generic_frame (s : System) (node : Node)
    (hval : ∀ c ∈ node.children, is_valid s c = true)
    (hnodup : (node.children.map NodeId.index).Nodup)
    (j : Nat) (hj : j ∉ node.children.map NodeId.index) :
    nodeAt (layout_generic s node) j = nodeAt s j :=
  (foldl_char' (generic_child node) (generic_write node) (generic_child_eq node)
    (generic_write_shape node) node.children s hval hnodup).2 j hj

theorem layout_center_frame (s : System) (node : Node)
    (hval : ∀ c ∈ node.children, is_valid s c = true)
    (hnodup : (node.children.map NodeId.index).Nodup)
    (j : Nat) (hj : j ∉ node.children.map NodeId.index) :
    nodeAt (layout_center s node) j = nodeAt s j := by
  rw [layout_center_eq_fold]
  exact (foldl_char' (center_child node) (center_write node) (center_child_eq node)
    (center_write_shape node) node.children s hval hnodup).2 j hj

theorem layout_box_frame (s : System) (node : Node) (data : BoxData)
    (hval : ∀ c ∈ node.children, is_valid s c = true)
    (hnodup : (node.children.map NodeId.index).Nodup)
    (j : Nat) (hj : j ∉ node.children.map NodeId.index) :
    nodeAt (layout_box s node data) j = nodeAt s j := by
  rw [layout_box_eq_fold]
  exact (foldl_char
    (box_child node data _ _ _) (box_write node data _ _) (box_advance data _ _ _)
    (box_child_eq node data _ _ _) (fun a n => box_write_shape node data _ _ a n)
    node.children _ s hval hnodup).2.1 j hj

theorem layout_flow_frame (s : System) (node : Node) (data : FlowData)
    (hval : ∀ c ∈ node.children, is_valid s c = true)
    (hnodup : (node.children.map NodeId.index).Nodup)
    (j : Nat) (hj : j ∉ node.children.map NodeId.index) :
    nodeAt (layout_flow s node data) j = nodeAt s j := by
  rw [layout_flow_eq_fold]
  exact (foldl_char (flow_child node data)
    (fun (p : float2 × ℚ) n => flow_write node data p.1 p.2 n)
    (flow_advance node data)
    (fun p c => flow_child_eq node data p c)
    (fun p n => flow_write_shape node data p.1 p.2 n)
    node.children _ s hval hnodup).2.1 j hj

theorem layout_margin_frame (s : System) (node : Node) (data : MarginData)
    (hval : ∀ c ∈ node.children, is_valid s c = true)
    (hnodup : (node.children.map NodeId.index).Nodup)
    (j : Nat) (hj : j ∉ node.children.map NodeId.index) :
    nodeAt (layout_margin s node data) j = nodeAt s j := by
  rw [layout_margin_eq_fold]
  exact (foldl_char' (margin_child node _ _) (margin_write node _ _)
    (margin_child_eq node _ _) (margin_write_shape node _ _)
    node.children s hval hnodup).2 j hj

theorem layout_step_frame (s : System) (node : Node)
    (hval : ∀ c ∈ node.children, is_valid s c = true)
    (hnodup : (node.children.map NodeId.index).Nodup)
    (j : Nat) (hj : j ∉ node.children.map NodeId.index) :
    nodeAt (layout_step s node) j = nodeAt s j := by
  cases htype : node.type <;> simp only [layout_step, htype]
  · exact layout_generic_frame s node hval hnodup j hj
  · exact layout_center_frame s node hval hnodup j hj
  · exact layout_box_frame s node _ hval hnodup j hj
  · exact layout_flow_frame s node _ hval hnodup j hj
  · exact layout_margin_frame s node _ hval hnodup j hj

theorem box_fold_stable (s X : System) (node : Node) (data : BoxData)
    (lo ts sp cursor : ℚ)
    (hval : ∀ c ∈ node.children, is_valid s c = true)
    (hvalX : ∀ c ∈ node.children, is_valid X c = true)
    (hnodup : (node.children.map NodeId.index).Nodup)
    (hX : ∀ c ∈ node.children,
      nodeAt X c.index =
        nodeAt ((node.children.foldl (box_child node data lo ts sp) (cursor, s)).2)
          c.index) :
    (node.children.foldl (box_child node data lo ts sp) (cursor, X)).2 = X := by
  obtain ⟨hchar, -, -⟩ := foldl_char (box_child node data lo ts sp)
      (box_write node data lo ts) (box_advance data lo ts sp)
      (box_child_eq node data lo ts sp)
      (fun a n => box_write_shape node data lo ts a n)
      node.children cursor s hval hnodup
  have h := foldl_stable (box_child node data lo ts sp)
      (box_write node data lo ts) (box_advance data lo ts sp)
      (box_child_eq node data lo ts sp)
      (fun a n => box_write_shape node data lo ts a n)
      (fun a n => box_write_idem node data lo ts a n)
      (fun a {n m} hnm => box_advance_congr hnm data lo ts sp a)
      node.children cursor s X hvalX
      (fun k hk => by
        rw [hX _ (node.children.get_mem k hk)]
        exact hchar k hk)
  exact congrArg Prod.snd h

theorem flow_fold_stable (s X : System) (node : Node) (data : FlowData)
    (oc : float2 × ℚ)
    (hval : ∀ c ∈ node.children, is_valid s c = true)
    (hvalX : ∀ c ∈ node.children, is_valid X c = true)
    (hnodup : (node.children.map NodeId.index).Nodup)
    (hX : ∀ c ∈ node.children,
      nodeAt X c.index =
        nodeAt ((node.children.foldl (flow_child node data) (oc, s)).2) c.index) :
    (node.children.foldl (flow_child node data) (oc, X)).2 = X := by
  obtain ⟨hchar, -, -⟩ := foldl_char (flow_child node data)
      (fun (p : float2 × ℚ) n => flow_write node data p.1 p.2 n)
      (flow_advance node data)
      (fun p c => flow_child_eq node data p c)
      (fun p n => flow_write_shape node data p.1 p.2 n)
      node.children oc s hval hnodup
  have h := foldl_stable (flow_child node data)
      (fun (p : float2 × ℚ) n => flow_write node data p.1 p.2 n)
      (flow_advance node data)
      (fun p c => flow_child_eq node data p c)
      (fun p n => flow_write_shape node data p.1 p.2 n)
      (fun p n => flow_write_idem node data p.1 p.2 n)
      (fun p {n m} hnm => flow_advance_congr hnm node data p)
      node.children oc s X hvalX
      (fun k hk => by
        rw [hX _ (node.children.get_mem k hk)]
        exact hchar k hk)
  exact congrArg Prod.snd h

theorem layout_step_stable (s X : System) (node : Node) (hSE : structEq X s)
    (hval : ∀ c ∈ node.children, is_valid s c = true)
    (hnodup : (node.children.map NodeId.index).Nodup)
    (hX : ∀ c ∈ node.children, nodeAt X c.index = nodeAt (layout_step s node) c.index) :
    layout_step X node = X := by
  have hvalX : ∀ c ∈ node.children, is_valid X c = true := by
    intro c hc
    rw [is_valid_structEq hSE]
    exact hval c hc
  have hcomp : X.components = s.components := hSE.2.2.1
  cases htype : node.type <;> simp only [layout_step, htype] at hX ⊢
  · have hchar := (foldl_char' (generic_child node) (generic_write node)
      (generic_child_eq node) (generic_write_shape node) node.children s hval hnodup).1
    exact foldl_stable' (generic_child node) (generic_write node) (generic_child_eq node)
      (generic_write_shape node) (generic_write_idem node) node.children s X hvalX
      (fun c hc => by rw [hX c hc]; exact hchar c hc)
  · rw [layout_center_eq_fold X node]
    have hchar := (foldl_char' (center_child node) (center_write node)
      (center_child_eq node) (center_write_shape node) node.children s hval hnodup).1
    exact foldl_stable' (center_child node) (center_write node) (center_child_eq node)
      (center_write_shape node) (center_write_idem node) node.children s X hvalX
      (fun c hc => by rw [hX c hc, layout_center_eq_fold s node]; exact hchar c hc)
  · rw [hcomp, layout_box_eq_fold X node _, box_totals_structEq hSE node _]
    apply box_fold_stable s X node _ _ _ _ _ hval hvalX hnodup
    intro c hc
    rw [hX c hc, layout_box_eq_fold s node _]
  · rw [hcomp, layout_flow_eq_fold X node _]
    apply flow_fold_stable s X node _ _ hval hvalX hnodup
    intro c hc
    rw [hX c hc, layout_flow_eq_fold s node _]
  · rw [hcomp, layout_margin_eq_fold X node _]
    have hchar := (foldl_char'
      (margin_child node
        ⟨node.bounds.origin.x + (s.components.margins.getD node.component_index default).left,
         node.bounds.origin.y + (s.components.margins.getD node.component_index default).top⟩
        ⟨max 0 (node.bounds.size.x -
            (s.components.margins.getD node.component_index default).left -
            (s.components.margins.getD node.component_index default).right),
         max 0 (node.bounds.size.y -
            (s.components.margins.getD node.component_index default).top -
            (s.components.margins.getD node.component_index default).bottom)⟩)
      (margin_write node
        ⟨node.bounds.origin.x + (s.components.margins.getD node.component_index default).left,
         node.bounds.origin.y + (s.components.margins.getD node.component_index default).top⟩
        ⟨max 0 (node.bounds.size.x -
            (s.components.margins.getD node.component_index default).left -
            (s.components.margins.getD node.component_index default).right),
         max 0 (node.bounds.size.y -
            (s.components.margins.getD node.component_index default).top -
            (s.components.margins.getD node.component_index default).bottom)⟩)
      (margin_child_eq node _ _) (margin_write_shape node _ _)
      node.children s hval hnodup).1
    exact foldl_stable'
      (margin_child node
        ⟨node.bounds.origin.x + (s.components.margins.getD node.component_index default).left,
         node.bounds.origin.y + (s.components.margins.getD node.component_index default).top⟩
        ⟨max 0 (node.bounds.size.x -
            (s.components.margins.getD node.component_index default).left -
            (s.components.margins.getD node.component_index default).right),
         max 0 (node.bounds.size.y -
            (s.components.margins.getD node.component_index default).top -
            (s.components.margins.getD node.component_index default).bottom)⟩)
      (margin_write node _ _)
      (margin_child_eq node _ _) (margin_write_shape node _ _)
      (margin_write_idem node _ _) node.children s X hvalX
      (fun c hc => by rw [hX c hc, layout_margin_eq_fold s node _]; exact hchar c hc)

theorem root_not_mem_proper {t : LTree} (h : t.flat.Nodup) : t.idx ∉ t.proper := by
  cases t with
  | node i ks =>
    rw [flat_node] at h
    rw [idx_node, proper_node]
    exact (List.nodup_cons.mp h).1

theorem compute_frame_both : ∀ N : Nat,
    (∀ t : LTree, sizeOf t ≤ N → ∀ (fuel : Nat) (s : System) (id : NodeId),
      reprB s id t = true → t.flat.Nodup →
      ∀ j, j ∉ t.proper → nodeAt (compute_layout fuel s id) j = nodeAt s j) ∧
    (∀ ts : List LTree, sizeOf ts ≤ N → ∀ (fuel : Nat) (z : System) (cs : List NodeId),
      reprKids z cs ts = true → (LTree.flatList ts).Nodup →
      ∀ j, j ∉ LTree.flatList ts →
        nodeAt (cs.foldl (fun acc c => compute_layout fuel acc c) z) j = nodeAt z j) := by
  intro N
  induction N with
  | zero =>
    constructor
    · intro t ht; exact absurd ht (by have := sizeOf_tree_pos t; omega)
    · intro ts hts; exact absurd hts (by have := sizeOf_forest_pos ts; omega)
  | succ N ih =>
    constructor
    · intro t ht fuel s id hrep hnd j hj
      cases t with
      | node r ks =>
        cases fuel with
        | zero => rfl
        | succ fuel =>
          obtain ⟨hv, hidx, hkids⟩ := reprB_true hrep
          rw [flat_node] at hnd
          have hnd2 : (LTree.flatList ks).Nodup := (List.nodup_cons.mp hnd).2
          have hvalch : ∀ c ∈ (nodeAt s id.index).children, is_valid s c = true :=
            reprKids_valid hkids
          have hmapidx : (nodeAt s id.index).children.map NodeId.index = ks.map LTree.idx :=
            reprKids_map_index hkids
          have hndch : ((nodeAt s id.index).children.map NodeId.index).Nodup := by
            rw [hmapidx]; exact nodup_map_idx hnd2
          rw [proper_node] at hj
          have hjch : j ∉ (nodeAt s id.index).children.map NodeId.index := by
            rw [hmapidx]; intro hmem; exact hj (mem_map_idx_flatList hmem)
          have hks : sizeOf ks ≤ N := by
            simp only [LTree.node.sizeOf_spec] at ht; omega
          have hstep : nodeAt (layout_step s (nodeAt s id.index)) j = nodeAt s j :=
            layout_step_frame s (nodeAt s id.index) hvalch hndch j hjch
          have hSE1 : structEq (layout_step s (nodeAt s id.index)) s :=
            layout_step_structEq s (nodeAt s id.index)
          have hkids1 : reprKids (layout_step s (nodeAt s id.index))
              (nodeAt s id.index).children ks = true := by
            rw [reprKids_structEq hSE1]; exact hkids
          have hrec := ih.2 ks hks fuel (layout_step s (nodeAt s id.index))
            (nodeAt s id.index).children hkids1 hnd2 j hj
          show nodeAt (compute_layout (fuel + 1) s id) j = nodeAt s j
          unfold compute_layout
          rw [get_node_valid hv]
          dsimp only
          rw [hrec, hstep]
    · intro ts hts fuel z cs hkids hnd j hj
      cases ts with
      | nil =>
        cases cs with
        | nil => rfl
        | cons c cs => rw [reprKids_cons_nil] at hkids; cases hkids
      | cons t' ts' =>
        cases cs with
        | nil => rw [reprKids_nil_cons] at hkids; cases hkids
        | cons c cs =>
          obtain ⟨h1, h2⟩ := reprKids_cons_true hkids
          obtain ⟨hf1, hf2, hdisj⟩ := nodup_flatList_parts hnd
          rw [flatList_cons] at hj
          have hj1 : j ∉ t'.flat := fun hm => hj (List.mem_append.mpr (Or.inl hm))
          have hj2 : j ∉ LTree.flatList ts' := fun hm => hj (List.mem_append.mpr (Or.inr hm))
          have hb : sizeOf t' ≤ N ∧ sizeOf ts' ≤ N := by
            simp only [List.cons.sizeOf_spec] at hts
            have hp1 := sizeOf_tree_pos t'
            have hp2 := sizeOf_forest_pos ts'
            omega
          have hstep1 : nodeAt (compute_layout fuel z c) j = nodeAt z j :=
            ih.1 t' hb.1 fuel z c h1 hf1 j (fun hm => hj1 (proper_sub_flat hm))
          have hSE : structEq (compute_layout fuel z c) z := compute_layout_structEq fuel z c
          have h2' : reprKids (compute_layout fuel z c) cs ts' = true := by
            rw [reprKids_structEq hSE]; exact h2
          have hrec := ih.2 ts' hb.2 fuel (compute_layout fuel z c) cs h2' hf2 j hj2
          rw [List.foldl_cons]
          rw [hrec, hstep1]

theorem compute_frame (t : LTree) (fuel : Nat) (s : System) (id : NodeId)
    (hrep : reprB s id t = true) (hnd : t.flat.Nodup) {j : Nat} (hj : j ∉ t.proper) :
    nodeAt (compute_layout fuel s id) j = nodeAt s j :=
  (compute_frame_both (sizeOf t)).1 t (le_refl _) fuel s id hrep hnd j hj

theorem computeList_frame (ts : List LTree) (fuel : Nat) (z : System) (cs : List NodeId)
    (hkids : reprKids z cs ts = true) (hnd : (LTree.flatList ts).Nodup) {j : Nat}
    (hj : j ∉ LTree.flatList ts) :
    nodeAt (cs.foldl (fun acc c => compute_layout fuel acc c) z) j = nodeAt z j :=
  (compute_frame_both (sizeOf ts)).2 ts (le_refl _) fuel z cs hkids hnd j hj

theorem computeList_roots : ∀ (ts : List LTree) (fuel : Nat) (z : System) (cs : List NodeId),
    reprKids z cs ts = true → (LTree.flatList ts).Nodup →
    ∀ j ∈ ts.map LTree.idx,
      nodeAt (cs.foldl (fun acc c => compute_layout fuel acc c) z) j = nodeAt z j := by
  intro ts
  induction ts with
  | nil => intro fuel z cs h hnd j hj; cases hj
  | cons t' ts' ih =>
    intro fuel z cs hkids hnd j hj
    cases cs with
    | nil => rw [reprKids_nil_cons] at hkids; cases hkids
    | cons c cs =>
      obtain ⟨h1, h2⟩ := reprKids_cons_true hkids
      obtain ⟨hf1, hf2, hdisj⟩ := nodup_flatList_parts hnd
      have hSE : structEq (compute_layout fuel z c) z := compute_layout_structEq fuel z c
      have h2' : reprKids (compute_layout fuel z c) cs ts' = true := by
        rw [reprKids_structEq hSE]; exact h2
      rw [List.map_cons] at hj
      rcases List.mem_cons.mp hj with he | hm
      · have hjp : j ∉ t'.proper := by
          rw [he]; exact root_not_mem_proper hf1
        have hstep1 : nodeAt (compute_layout fuel z c) j = nodeAt z j :=
          compute_frame t' fuel z c h1 hf1 hjp
        have hj2 : j ∉ LTree.flatList ts' := by
          rw [he]; exact hdisj t'.idx (idx_mem_flat t')
        have hrec := computeList_frame ts' fuel (compute_layout fuel z c) cs h2' hf2 hj2
        rw [List.foldl_cons]
        rw [hrec, hstep1]
      · have hjf : j ∈ LTree.flatList ts' := mem_map_idx_flatList hm
        have hj1 : j ∉ t'.flat := fun hmem => hdisj j hmem hjf
        have hstep1 : nodeAt (compute_layout fuel z c) j = nodeAt z j :=
          compute_frame t' fuel z c h1 hf1 (fun hmem => hj1 (proper_sub_flat hmem))
        have hrec := ih fuel (compute_layout fuel z c) cs h2' hf2 j hm
        rw [List.foldl_cons]
        rw [hrec, hstep1]

theorem compute_stable_both : ∀ N : Nat,
    (∀ t : LTree, sizeOf t ≤ N → ∀ (fuel : Nat) (s X : System) (id : NodeId),
      reprB s id t = true → t.flat.Nodup →
      structEq X (compute_layout fuel s id) →
      (∀ j ∈ t.flat, nodeAt X j = nodeAt (compute_layout fuel s id) j) →
      compute_layout fuel X id = X) ∧
    (∀ ts : List LTree, sizeOf ts ≤ N → ∀ (fuel : Nat) (z X : System) (cs : List NodeId),
      reprKids z cs ts = true → (LTree.flatList ts).Nodup →
      structEq X (cs.foldl (fun acc c => compute_layout fuel acc c) z) →
      (∀ j ∈ LTree.flatList ts,
        nodeAt X j = nodeAt (cs.foldl (fun acc c => compute_layout fuel acc c) z) j) →
      cs.foldl (fun acc c => compute_layout fuel acc c) X = X) := by
  intro N
  induction N with
  | zero =>
    constructor
    · intro t ht; exact absurd ht (by have := sizeOf_tree_pos t; omega)
    · intro ts hts; exact absurd hts (by have := sizeOf_forest_pos ts; omega)
  | succ N ih =>
    constructor
    · intro t ht fuel s X id hrep hnd hSE hagr
      cases t with
      | node r ks =>
        cases fuel with
        | zero => rfl
        | succ fuel =>
          obtain ⟨hv, hidx, hkids⟩ := reprB_true hrep
          have hndflat := hnd
          rw [flat_node] at hnd hagr
          have hnd2 : (LTree.flatList ks).Nodup := (List.nodup_cons.mp hnd).2
          have hrnot : r ∉ LTree.flatList ks := (List.nodup_cons.mp hnd).1
          have hks : sizeOf ks ≤ N := by
            simp only [LTree.node.sizeOf_spec] at ht; omega
          have hvalch : ∀ c ∈ (nodeAt s id.index).children, is_valid s c = true :=
            reprKids_valid hkids
          have hmapidx : (nodeAt s id.index).children.map NodeId.index = ks.map LTree.idx :=
            reprKids_map_index hkids
          have hndch : ((nodeAt s id.index).children.map NodeId.index).Nodup := by
            rw [hmapidx]; exact nodup_map_idx hnd2
          have hSEcs : structEq (compute_layout (fuel + 1) s id) s :=
            compute_layout_structEq (fuel + 1) s id
          have hSEXs : structEq X s := structEq_trans hSE hSEcs
          have hroot_frame :
              nodeAt (compute_layout (fuel + 1) s id) id.index = nodeAt s id.index := by
            have hnp : id.index ∉ LTree.proper (LTree.node r ks) := by
              rw [proper_node, hidx]; exact hrnot
            exact compute_frame (LTree.node r ks) (fuel + 1) s id hrep hndflat hnp
          have hXroot : nodeAt X id.index = nodeAt s id.index := by
            rw [hagr id.index (by rw [hidx]; exact List.mem_cons_self _ _), hroot_frame]
          have hvX : is_valid X id = true := by
            rw [is_valid_structEq hSEXs]; exact hv
          have hunfold : compute_layout (fuel + 1) s id =
              (nodeAt s id.index).children.foldl (fun acc c => compute_layout fuel acc c)
                (layout_step s (nodeAt s id.index)) := by
            conv_lhs => rw [compute_layout]
            rw [get_node_valid hv]
          have hSE1 : structEq (layout_step s (nodeAt s id.index)) s :=
            layout_step_structEq s (nodeAt s id.index)
          have hkids1 : reprKids (layout_step s (nodeAt s id.index))
              (nodeAt s id.index).children ks = true := by
            rw [reprKids_structEq hSE1]; exact hkids
          have hXch : ∀ c ∈ (nodeAt s id.index).children,
              nodeAt X c.index = nodeAt (layout_step s (nodeAt s id.index)) c.index := by
            intro c hc
            have hcidx : c.index ∈ ks.map LTree.idx := by
              rw [← hmapidx]; exact List.mem_map_of_mem NodeId.index hc
            have hcflat : c.index ∈ LTree.flatList ks := mem_map_idx_flatList hcidx
            have h1 := hagr c.index (List.mem_cons_of_mem _ hcflat)
            rw [hunfold] at h1
            rw [h1]
            exact computeList_roots ks fuel (layout_step s (nodeAt s id.index))
              (nodeAt s id.index).children hkids1 hnd2 c.index hcidx
          have hLX : layout_step X (nodeAt s id.index) = X :=
            layout_step_stable s X (nodeAt s id.index) hSEXs hvalch hndch hXch
          show compute_layout (fuel + 1) X id = X
          unfold compute_layout
          rw [get_node_valid hvX, hXroot]
          dsimp only
          rw [hLX]
          refine ih.2 ks hks fuel (layout_step s (nodeAt s id.index)) X
            (nodeAt s id.index).children hkids1 hnd2 ?_ ?_
          · rw [← hunfold]; exact hSE
          · intro j hjf
            rw [← hunfold]
            exact hagr j (List.mem_cons_of_mem _ hjf)
    · intro ts hts fuel z X cs hkids hnd hSE hagr
      cases ts with
      | nil =>
        cases cs with
        | nil => rfl
        | cons c cs => rw [reprKids_cons_nil] at hkids; cases hkids
      | cons t' ts' =>
        cases cs with
        | nil => rw [reprKids_nil_cons] at hkids; cases hkids
        | cons c cs =>
          obtain ⟨h1, h2⟩ := reprKids_cons_true hkids
          obtain ⟨hf1, hf2, hdisj⟩ := nodup_flatList_parts hnd
          have hb : sizeOf t' ≤ N ∧ sizeOf ts' ≤ N := by
            simp only [List.cons.sizeOf_spec] at hts
            have hp1 := sizeOf_tree_pos t'
            have hp2 := sizeOf_forest_pos ts'
            omega
          have hz1SE : structEq (compute_layout fuel z c) z := compute_layout_structEq fuel z c
          have h2' : reprKids (compute_layout fuel z c) cs ts' = true := by
            rw [reprKids_structEq hz1SE]; exact h2
          have hfold : (c :: cs).foldl (fun acc d => compute_layout fuel acc d) z =
              cs.foldl (fun acc d => compute_layout fuel acc d) (compute_layout fuel z c) := by
            rw [List.foldl_cons]
          rw [hfold] at hSE hagr
          rw [flatList_cons] at hagr
          have hagr1 : ∀ j ∈ t'.flat, nodeAt X j = nodeAt (compute_layout fuel z c) j := by
            intro j hjf
            rw [hagr j (List.mem_append.mpr (Or.inl hjf))]
            exact computeList_frame ts' fuel (compute_layout fuel z c) cs h2' hf2
              (fun hm => hdisj j hjf hm)
          have hfSE : structEq (cs.foldl (fun acc d => compute_layout fuel acc d)
              (compute_layout fuel z c)) (compute_layout fuel z c) :=
            foldl_structEq' _ (fun s' c' => compute_layout_structEq fuel s' c') cs _
          have hSE2 : structEq X (compute_layout fuel z c) := structEq_trans hSE hfSE
          have hstep : compute_layout fuel X c = X := ih.1 t' hb.1 fuel z X c h1 hf1 hSE2 hagr1
          have hagr2 : ∀ j ∈ LTree.flatList ts',
              nodeAt X j = nodeAt (cs.foldl (fun acc d => compute_layout fuel acc d)
                (compute_layout fuel z c)) j := by
            intro j hjf
            exact hagr j (List.mem_append.mpr (Or.inr hjf))
          have htail := ih.2 ts' hb.2 fuel (compute_layout fuel z c) X cs h2' hf2 hSE hagr2
          rw [List.foldl_cons, hstep, htail]

/-! ### Claim theorems (first batch) -/

/-- C10: for every arena state and every handle that is not valid (null,
out-of-range, dead slot or mismatched generation), `compute_layout` is a
no-op: it returns the state unchanged (hence touches no node's bounds,
tree links or lifecycle fields). -/
theorem C10_compute_layout_invalid_noop (fuel : Nat) (s : System) (id : NodeId)
    (h : is_valid s id = false) : compute_layout fuel s id = s := by
  cases fuel with
  | zero => rfl
  | succ f => simp [compute_layout, get_node, h]

/-- Witness for C10 at a concrete input: the empty arena and the handle
`{0, 0}`. -/
theorem C10_witness :
    is_valid {} ⟨0, 0⟩ = false ∧ compute_layout 3 {} ⟨0, 0⟩ = {} :=
  ⟨by decide, C10_compute_layout_invalid_noop 3 {} ⟨0, 0⟩ (by decide)⟩

/-- C6: every typed creation function called with a non-null invalid
parent returns the null handle and leaves the arena (node slots, child
links, component pools and free lists) completely unchanged. -/
theorem C6_invalid_parent_no_mutation (s : System) (p : NodeId)
    (bd : BoxData) (fd : FlowData) (md : MarginData)
    (hnull : p.is_null = false) (hvalid : is_valid s p = false) :
    add_generic s p = (s, NullNode) ∧ add_center s p = (s, NullNode) ∧
    add_box s p bd = (s, NullNode) ∧ add_flow s p fd = (s, NullNode) ∧
    add_margin s p md = (s, NullNode) := by
  simp [add_generic, add_center, add_box, add_flow, add_margin, hnull, hvalid]

/-- Witness for C6 at a concrete input: the empty arena and parent handle
`{0, 0}` (non-null, invalid). -/
theorem C6_witness :
    NodeId.is_null ⟨0, 0⟩ = false ∧ is_valid {} ⟨0, 0⟩ = false ∧
    add_generic {} ⟨0, 0⟩ = ({}, NullNode) :=
  ⟨by decide, by decide,
   (C6_invalid_parent_no_mutation {} ⟨0, 0⟩ {} {} {} (by decide) (by decide)).1⟩

/-- C3: `reparent_node` returns false and leaves the arena unchanged
whenever the moved handle is invalid, the new parent is non-null and
invalid, the new parent equals the node, or the new parent is the node
itself or one of its descendants (as computed by the code's own
depth-first `is_descendant` search). -/
theorem C3_reparent_rejections (fuel : Nat) (s : System) (id p : NodeId)
    (h : is_valid s id = false ∨ (p.is_null = false ∧ is_valid s p = false) ∨
         p = id ∨ (p.is_null = false ∧ is_descendant fuel s id p = true)) :
    reparent_node fuel s id p = (s, false) := by
  rcases h with h | ⟨ha, hb⟩ | h | ⟨ha, hb⟩
  · simp [reparent_node, h]
  · by_cases hv : is_valid s id
    · simp [reparent_node, hv, ha, hb]
    · simp [reparent_node, hv]
  · subst h
    by_cases hv : is_valid s p
    · simp [reparent_node, hv]
    · simp [reparent_node, hv]
  · by_cases hv : is_valid s id
    · by_cases hq : is_valid s p
      · by_cases he : id = p
        · simp [reparent_node, hv, he]
        · simp [reparent_node, hv, ha, hq, hb, he]
      · simp [reparent_node, hv, ha, hq]
    · simp [reparent_node, hv]

/-- Witness for C3 at a concrete input: a two-node arena (root with one
child), reparenting the root under its child is rejected. -/
theorem C3_witness :
    (is_descendant 2 ⟨[{ children := [⟨1, 0⟩] }, { parent := ⟨0, 0⟩ }], {}, [], []⟩
        ⟨0, 0⟩ ⟨1, 0⟩ = true) ∧
    reparent_node 2 ⟨[{ children := [⟨1, 0⟩] }, { parent := ⟨0, 0⟩ }], {}, [], []⟩
        ⟨0, 0⟩ ⟨1, 0⟩ =
      (⟨[{ children := [⟨1, 0⟩] }, { parent := ⟨0, 0⟩ }], {}, [], []⟩, false) :=
  ⟨by decide,
   C3_reparent_rejections 2 _ ⟨0, 0⟩ ⟨1, 0⟩ (Or.inr (Or.inr (Or.inr ⟨by decide, by decide⟩)))⟩

/-- C2 (the margin scenario the repository's own test asserts): on a
100×100 Margin node with insets 10 and one all-default child with
`expand:(1,1)`, the code computes child bounds `{(0,0),(80,80)}` — the
size is inset but the origin is left at the child's previous (default)
origin, because zero anchors make `resolve_anchors` a no-op and
`layout_margin` never repositions a non-anchored child.  The claimed
bounds `{(10,10),(80,80)}` do not hold. -/
theorem C2_margin_scenario :
    (nodeAt (compute_layout 2 margin_scn_sys ⟨0, 0⟩) 1).bounds = ⟨⟨0, 0⟩, ⟨80, 80⟩⟩ ∧
    (nodeAt (compute_layout 2 margin_scn_sys ⟨0, 0⟩) 1).bounds ≠ ⟨⟨10, 10⟩, ⟨80, 80⟩⟩ := by
  have h : (nodeAt (compute_layout 2 margin_scn_sys ⟨0, 0⟩) 1).bounds = ⟨⟨0, 0⟩, ⟨80, 80⟩⟩ := by
    norm_num [compute_layout, layout_step, layout_generic, generic_child, generic_write,
      layout_margin, margin_child, margin_write, resolve_anchors, get_node, is_valid,
      nodeAt, setNode, NodeId.is_null, NullNode, List.getD, List.foldl,
      margin_scn_sys, margin_scn_root, margin_scn_child]
  refine ⟨h, ?_⟩
  rw [h]
  intro heq
  have := congrArg (fun r => r.origin.x) heq
  norm_num at this

/-- C9 (the flow wrapping scenario): Flow, Horizontal, parent width 70,
three children of main-axis minimum 30 — the first two are placed at x=0
and x=30 on row 0, the third wraps to x=0 on row 1 whose y equals row 0's
height (the maximum cross size seen on row 0). -/
theorem C9_flow_wrap_scenario :
    (nodeAt (compute_layout 2 flow_scn_sys ⟨0, 0⟩) 1).bounds.origin = ⟨0, 0⟩ ∧
    (nodeAt (compute_layout 2 flow_scn_sys ⟨0, 0⟩) 2).bounds.origin = ⟨30, 0⟩ ∧
    (nodeAt (compute_layout 2 flow_scn_sys ⟨0, 0⟩) 3).bounds.origin = ⟨0, 20⟩ ∧
    max (nodeAt (compute_layout 2 flow_scn_sys ⟨0, 0⟩) 1).bounds.size.y
        (nodeAt (compute_layout 2 flow_scn_sys ⟨0, 0⟩) 2).bounds.size.y = 20 := by
  norm_num [compute_layout, layout_step, layout_generic, generic_child, generic_write,
    layout_flow, flow_child, flow_write, flow_wrap, flow_size, resolve_anchors,
    get_node, is_valid, nodeAt, setNode, NodeId.is_null, NullNode, List.getD, List.foldl,
    flow_scn_sys, flow_scn_root, flow_scn_child]

/-- C4, counterexample: in a Horizontal Box, a child with cross-axis
(`y`) minimum 10, `expand.y = 1` and 100 of parent cross extent ends with
cross size 10 — `layout_box` never consults `expand` on the cross axis —
while the claimed precedence `max(anchor-resolved, minimum, expand-fill)`
would give 100. -/
theorem C4_counterexample :
    (nodeAt (compute_layout 2 box_cross_sys ⟨0, 0⟩) 1).bounds.size.y = 10 ∧
    max ((resolve_anchors box_cross_child box_cross_root).bounds.size.y)
        (max box_cross_child.minimum_size.y box_cross_root.bounds.size.y) = 100 ∧
    (nodeAt (compute_layout 2 box_cross_sys ⟨0, 0⟩) 1).bounds.size.y ≠
      max ((resolve_anchors box_cross_child box_cross_root).bounds.size.y)
        (max box_cross_child.minimum_size.y box_cross_root.bounds.size.y) := by
  have h1 : (nodeAt (compute_layout 2 box_cross_sys ⟨0, 0⟩) 1).bounds.size.y = 10 := by
    norm_num [compute_layout, layout_step, layout_generic, generic_child, generic_write,
      layout_box, box_child, box_write, box_size, box_totals, axis_main, resolve_anchors,
      get_node, is_valid, nodeAt, setNode, NodeId.is_null, NullNode, List.getD, List.foldl,
      box_cross_sys, box_cross_root, box_cross_child]
  have h2 : max ((resolve_anchors box_cross_child box_cross_root).bounds.size.y)
      (max box_cross_child.minimum_size.y box_cross_root.bounds.size.y) = 100 := by
    norm_num [resolve_anchors, box_cross_child, box_cross_root]
  exact ⟨h1, h2, by rw [h1, h2]; norm_num⟩

/-- C7: removing the anchor-resolution step for every child whose anchors
and offsets are all zero changes nothing: the skip variant of the engine
computes exactly the same states, on every tree and at every fuel — i.e.
anchor resolution is a no-op on such children, and the bounds
`compute_layout` resolves for them are identical to what the arrangement
algorithms produce with the step removed. -/
theorem C7_anchor_identity (fuel : Nat) (s : System) (id : NodeId) :
    compute_layout_skipzero fuel s id = compute_layout fuel s id :=
  congrFun (congrFun (compute_layout_skipzero_eq fuel) s) id

/-- C4, amended: in Box layouts the final cross-axis size is
`max(anchor-resolved cross size, minimum cross size)` — the child's
`expand` flag is never consulted on the cross axis — and in Flow layouts
the final size ignores anchor resolution entirely: it is exactly
`minimum_size`, with the cross axis *replaced* by (not raised to) the
parent's cross extent when `expand` is set there (`flow_size`).  Only the
main-axis size is cursor-computed.  (The unamended claim fails on the
expand-fill clause; see the counterexample.) -/
theorem C4_amended_cross_axis (s : System) (node : Node) (data : BoxData)
    (fdata : FlowData)
    (hval : ∀ c ∈ node.children, is_valid s c = true)
    (hnodup : (node.children.map NodeId.index).Nodup)
    (c : NodeId) (hc : c ∈ node.children) :
    (data.direction = Direction.Horizontal →
      (nodeAt (layout_box s node data) c.index).bounds.size.y =
        max ((resolve_anchors (nodeAt s c.index) node).bounds.size.y)
            (nodeAt s c.index).minimum_size.y) ∧
    (data.direction = Direction.Vertical →
      (nodeAt (layout_box s node data) c.index).bounds.size.x =
        max ((resolve_anchors (nodeAt s c.index) node).bounds.size.x)
            (nodeAt s c.index).minimum_size.x) ∧
    (nodeAt (layout_flow s node fdata) c.index).bounds.size =
      flow_size node fdata (nodeAt s c.index) := by
  have hne : ¬ node.children.isEmpty = true := by
    cases hch : node.children
    · rw [hch] at hc; exact absurd hc (List.not_mem_nil c)
    · simp [hch]
  refine ⟨?_, ?_, ?_⟩
  · intro hdir
    unfold layout_box
    rw [if_neg hne]
    obtain ⟨a, ha⟩ := box_fold_cross s node data _ _ _ _ hval hnodup c hc
    rw [ha, box_write_y_of_horizontal _ _ _ _ _ _ hdir]
  · intro hdir
    unfold layout_box
    rw [if_neg hne]
    obtain ⟨a, ha⟩ := box_fold_cross s node data _ _ _ _ hval hnodup c hc
    rw [ha, box_write_x_of_vertical _ _ _ _ _ _ hdir]
  · unfold layout_flow
    rw [if_neg hne]
    exact flow_fold_size s node fdata _ hval hnodup c hc

/-- Witness for the amended C4 at a concrete input: the single-child Box
system of the counterexample. -/
theorem C4_amended_witness :
    (∀ c ∈ box_cross_root.children, is_valid box_cross_sys c = true) ∧
    (box_cross_root.children.map NodeId.index).Nodup ∧
    (⟨1, 0⟩ : NodeId) ∈ box_cross_root.children ∧
    ((({} : BoxData).direction = Direction.Horizontal →
      (nodeAt (layout_box box_cross_sys box_cross_root {}) 1).bounds.size.y =
        max ((resolve_anchors (nodeAt box_cross_sys 1) box_cross_root).bounds.size.y)
            (nodeAt box_cross_sys 1).minimum_size.y)) := by
  have h1 : ∀ c ∈ box_cross_root.children, is_valid box_cross_sys c = true := by
    intro c hcm
    have : c = (⟨1, 0⟩ : NodeId) := by
      simpa [box_cross_root] using hcm
    rw [this]
    decide
  have h2 : (box_cross_root.children.map NodeId.index).Nodup := by decide
  have h3 : (⟨1, 0⟩ : NodeId) ∈ box_cross_root.children := by decide
  exact ⟨h1, h2, h3,
    (C4_amended_cross_axis box_cross_sys box_cross_root {} {} h1 h2 ⟨1, 0⟩ h3).1⟩

/-- C5, amended: if every node's `minimum_size` and `stretch` components
are nonnegative and every node's current bounds size (the root's
included) is nonnegative, then after `compute_layout` no node's resolved
size component is negative — the arrangement math (leftover, margin
insets) clamps at zero, and nonnegativity of the inputs is preserved
through the pass.  (The unamended claim fails because negative
`minimum_size` values are *not* clamped; see the counterexample.) -/
theorem C5_amended_sizes_nonneg (fuel : Nat) (s : System) (id : NodeId)
    (hin : layout_inputs_nonneg s) (hsz : sizes_nonneg s) :
    sizes_nonneg (compute_layout fuel s id) :=
  (compute_layout_nonneg fuel s id ⟨hsz, hin⟩).1

/-- Witness for the amended C5 at a concrete input: the Center tree with
`minimum_size (5,5)`. -/
theorem C5_amended_witness :
    layout_inputs_nonneg center_pos_sys ∧ sizes_nonneg center_pos_sys ∧
    sizes_nonneg (compute_layout 2 center_pos_sys ⟨0, 0⟩) := by
  have hin : layout_inputs_nonneg center_pos_sys := by
    intro i
    rcases i with _ | _ | i <;>
      norm_num [nodeAt, List.getD, center_pos_sys, center_neg_root, center_pos_child,
        default_node_eq, defaultNode]
  have hsz : sizes_nonneg center_pos_sys := by
    intro i
    rcases i with _ | _ | i <;>
      norm_num [nodeAt, List.getD, center_pos_sys, center_neg_root, center_pos_child,
        default_node_eq, defaultNode]
  exact ⟨hin, hsz, C5_amended_sizes_nonneg 2 center_pos_sys ⟨0, 0⟩ hin hsz⟩

/-- C5, counterexample: a Center node propagates a negative
`minimum_size` directly into the child's resolved size — nothing clamps
it — so resolved sizes can be negative. -/
theorem C5_counterexample :
    (nodeAt (compute_layout 2 center_neg_sys ⟨0, 0⟩) 1).bounds.size.x = -5 ∧
    (nodeAt (compute_layout 2 center_neg_sys ⟨0, 0⟩) 1).bounds.size.x < 0 := by
  have h : (nodeAt (compute_layout 2 center_neg_sys ⟨0, 0⟩) 1).bounds.size.x = -5 := by
    norm_num [compute_layout, layout_step, layout_generic, generic_child, generic_write,
      layout_center, center_child, center_write, resolve_anchors, get_node, is_valid,
      nodeAt, setNode, NodeId.is_null, NullNode, List.getD, List.foldl, float2.add_def,
      center_neg_sys, center_neg_root, center_neg_child]
  exact ⟨h, by rw [h]; norm_num⟩

/-- C1 (handle safety): once `delete_node` succeeds for a handle `n`,
then after any further sequence of arena operations `is_valid` is false
for `n` and `get_node` returns "not found" — even after `n`'s slot index
is reused — and any creation performed at any such later point that
returns a (non-null) handle on `n`'s slot index returns a strictly
greater generation than `n`'s. -/
theorem C1_handle_safety (fuel : Nat) (s s1 : System) (n : NodeId)
    (hdel : delete_node fuel s n = (s1, true)) (ops : List Op) :
    is_valid (runOps s1 ops) n = false ∧
    get_node (runOps s1 ops) n = none ∧
    ∀ (op : Op) (h : NodeId), createdId (runOps s1 ops) op = some h →
      h.is_null = false → h.index = n.index → n.generation < h.generation := by
  have hstale : stale (runOps s1 ops) n := runOps_stale (delete_true_stale hdel) ops
  exact ⟨stale_not_valid hstale, stale_get_none hstale,
    fun op h hc hnull hidx => createdId_gen hstale op h hc hnull hidx⟩

/-- Witness for C1 at a concrete input: a one-node arena; the node is
deleted, then a fresh creation reuses slot 0 — the old handle stays
invalid, and the reusing creation hands out generation 1 > 0. -/
theorem C1_witness :
    delete_node 1 c1_sys ⟨0, 0⟩ = ((delete_node 1 c1_sys ⟨0, 0⟩).1, true) ∧
    is_valid (runOps (delete_node 1 c1_sys ⟨0, 0⟩).1
      [Op.addGeneric NullNode]) ⟨0, 0⟩ = false ∧
    createdId (runOps (delete_node 1 c1_sys ⟨0, 0⟩).1 []) (Op.addGeneric NullNode) =
      some ⟨0, 1⟩ :=
  ⟨by decide,
   (C1_handle_safety 1 c1_sys (delete_node 1 c1_sys ⟨0, 0⟩).1 ⟨0, 0⟩ (by decide)
     [Op.addGeneric NullNode]).1,
   by decide⟩

/-- C8: `compute_layout` is deterministic and idempotent on trees.  If the
handle `id` points at a tree stored in the arena (skeleton `t`, checked by
`reprB`, with no slot shared between two tree nodes), then running the
pass a second time — with the tree structure, minimum sizes,
anchors/offsets and root bounds unmodified (nothing at all is modified
between the runs) — reproduces the arena state of the first run exactly,
so every node's `bounds` after the second run are identical to those
after the first. -/
theorem C8_layout_idempotent (t : LTree) (fuel : Nat) (s : System) (id : NodeId)
    (hrep : reprB s id t = true) (hnd : t.flat.Nodup) :
    compute_layout fuel (compute_layout fuel s id) id = compute_layout fuel s id :=
  (compute_stable_both (sizeOf t)).1 t (le_refl _) fuel s (compute_layout fuel s id) id
    hrep hnd (structEq_refl _) (fun _ _ => rfl)

/-- Witness for C8 at a concrete input: a two-node tree (Generic root with
one leaf child); the second pass reproduces the first pass's state. -/
theorem C8_witness :
    reprB c8_sys ⟨0, 0⟩ c8_tree = true ∧ c8_tree.flat.Nodup ∧
    compute_layout 2 (compute_layout 2 c8_sys ⟨0, 0⟩) ⟨0, 0⟩ =
      compute_layout 2 c8_sys ⟨0, 0⟩ := by
  have hrep : reprB c8_sys ⟨0, 0⟩ c8_tree = true := by
    simp [c8_tree, reprB_node, reprKids_cons_cons, reprKids_nil_nil, is_valid,
      NodeId.is_null, nodeAt, List.getD, c8_sys, c8_root, c8_child]
  have hnd : c8_tree.flat.Nodup := by
    simp [c8_tree, flat_node, flatList_cons, flatList_nil]
  exact ⟨hrep, hnd, C8_layout_idempotent c8_tree 2 c8_sys ⟨0, 0⟩ hrep hnd⟩

end Frameflow
